import Mathlib

/-!
Verification of the schedule discovery/extraction engine of the pghl-mcp
repository.  The TypeScript sources under `src/` are shallowly embedded as
Lean functions over `String`/`List Char`; JavaScript string primitives
(`trim`, `split`, `includes`, `replace` with the concrete regexes appearing
in the source, `parseInt`, `toLowerCase`, …) are modelled character-exactly
for ASCII input, which is the character repertoire the scraped site uses.
-/

deriving instance DecidableEq for Except

namespace PGHL

/-! ## JavaScript character classes (ASCII model) -/

/-- JS `\s` whitespace (the members relevant to ASCII text plus NBSP,
compared through the code point). -/
def isJsWs (c : Char) : Bool :=
  c.toNat == 32 || c.toNat == 9 || c.toNat == 10 || c.toNat == 11 ||
  c.toNat == 12 || c.toNat == 13 || c.toNat == 160

/-- JS `[A-Za-z]`. -/
def isAsciiLetter (c : Char) : Bool :=
  (65 ≤ c.toNat && c.toNat ≤ 90) || (97 ≤ c.toNat && c.toNat ≤ 122)

/-- JS `\d`. -/
def isDigitCh (c : Char) : Bool :=
  48 ≤ c.toNat && c.toNat ≤ 57

/-- JS `[A-Za-z0-9]`. -/
def isAlnumCh (c : Char) : Bool :=
  isAsciiLetter c || isDigitCh c

/-- JS `\w`, i.e. `[A-Za-z0-9_]`. -/
def isWordCh (c : Char) : Bool :=
  isAlnumCh c || c == '_'

/-! ## JS string primitives on `List Char` -/

/-- `String.prototype.trim`, left part. -/
def trimLeftL (l : List Char) : List Char := l.dropWhile isJsWs

/-- `String.prototype.trim`, right part. -/
def trimRightL (l : List Char) : List Char := (l.reverse.dropWhile isJsWs).reverse

/-- `String.prototype.trim` on the underlying character list. -/
def jsTrimL (l : List Char) : List Char := trimRightL (trimLeftL l)

/-- `String.prototype.trim`. -/
def jsTrim (s : String) : String := ⟨jsTrimL s.data⟩

/-- JS `String.prototype.toLowerCase`, ASCII model (per-character). -/
def jsLowerCh (c : Char) : Char := c.toLower

/-- JS `String.prototype.toLowerCase`, ASCII model. -/
def jsLower (s : String) : String := ⟨s.data.map jsLowerCh⟩

/-- JS `String.prototype.toUpperCase` of one character, ASCII model. -/
def jsUpperCh (c : Char) : Char := c.toUpper

/-- Leftmost occurrence search: split `l` at the first occurrence of `sep`,
returning the part before and the part after.  `none` when `sep` does not
occur.  This mirrors the scan a JS engine performs for
`String.prototype.split`/`includes` with a plain-string separator. -/
def splitFirst (sep : List Char) : List Char → Option (List Char × List Char)
  | [] => if sep.isEmpty then some ([], []) else none
  | c :: rest =>
    if sep.isPrefixOf (c :: rest) then
      some ([], (c :: rest).drop sep.length)
    else
      match splitFirst sep rest with
      | some (pre, post) => some (c :: pre, post)
      | none => none

/-- JS `String.prototype.includes` with a plain-string needle. -/
def jsIncludesL (sep l : List Char) : Bool := (splitFirst sep l).isSome

/-- JS `String.prototype.includes` on `String`. -/
def jsIncludes (sep s : String) : Bool := jsIncludesL sep.data s.data

/-- The remainder produced by `splitFirst` is strictly shorter than the
input when the separator is nonempty. -/
theorem splitFirst_post_length {sep l pre post : List Char}
    (hsep : ¬ sep.isEmpty) (h : splitFirst sep l = some (pre, post)) :
    post.length < l.length := by
  induction l generalizing pre with
  | nil =>
    unfold splitFirst at h
    simp [hsep] at h
  | cons c rest ih =>
    unfold splitFirst at h
    by_cases hp : sep.isPrefixOf (c :: rest)
    · rw [if_pos hp] at h
      cases h
      have hs : 1 ≤ sep.length := by
        cases sep with
        | nil => simp at hsep
        | cons _ _ => simp
      simp only [List.length_drop, List.length_cons]
      omega
    · rw [if_neg hp] at h
      cases hrec : splitFirst sep rest with
      | none => rw [hrec] at h; cases h
      | some pq =>
        rw [hrec] at h
        cases pq with
        | mk a b =>
          simp only [Option.some.injEq, Prod.mk.injEq] at h
          obtain ⟨h1, h2⟩ := h
          subst h2
          have := ih hrec
          simp only [List.length_cons]
          omega

/-- Fuel-indexed splitting loop for `jsSplitL`; the fuel only needs to
dominate the number of separator occurrences. -/
def jsSplitAux (sep : List Char) : Nat → List Char → List (List Char)
  | 0, l => [l]
  | fuel + 1, l =>
    match splitFirst sep l with
    | some (pre, post) => pre :: jsSplitAux sep fuel post
    | none => [l]

/-- JS `String.prototype.split` with a nonempty plain-string separator. -/
def jsSplitL (sep l : List Char) : List (List Char) :=
  if sep.isEmpty then [l] else jsSplitAux sep l.length l

/-- JS `String.prototype.split` with a single-character separator. -/
def splitCh (sep : Char) : List Char → List (List Char)
  | [] => [[]]
  | c :: rest =>
    if c == sep then [] :: splitCh sep rest
    else
      match splitCh sep rest with
      | g :: gs => (c :: g) :: gs
      | [] => [[c]]

/-- `str.padStart(2, '0')` on character lists. -/
def padStart2 (l : List Char) : List Char :=
  match l with
  | [] => ['0', '0']
  | [c] => ['0', c]
  | l => l

/-- JS `parseInt(str, 10)`: skip leading whitespace, optional sign, then a
nonempty run of leading decimal digits; `none` models `NaN`. -/
def jsParseInt (l : List Char) : Option Int :=
  let l := l.dropWhile isJsWs
  match l with
  | '-' :: rest =>
    let ds := rest.takeWhile isDigitCh
    if ds.isEmpty then none else some (-(Int.ofNat (digitsToNat ds)))
  | '+' :: rest =>
    let ds := rest.takeWhile isDigitCh
    if ds.isEmpty then none else some (Int.ofNat (digitsToNat ds))
  | _ =>
    let ds := l.takeWhile isDigitCh
    if ds.isEmpty then none else some (Int.ofNat (digitsToNat ds))
where
  /-- Numeric value of a digit run. -/
  digitsToNat (ds : List Char) : Nat :=
    ds.foldl (fun acc c => acc * 10 + (c.toNat - 48)) 0

/-! ## `src/utils/date-parser.ts` — `parsePGHLTime` -/

/-- `.replace(/ [A-Z]{2,3}$/i, '')`: drop a trailing space-plus-2-or-3-letter
run (the longer alternative wins, matching the regex's leftmost match). -/
def stripTZ (l : List Char) : List Char :=
  match l.reverse with
  | a :: b :: c :: d :: rest =>
    if isAsciiLetter a && isAsciiLetter b && isAsciiLetter c && d == ' ' then rest.reverse
    else if isAsciiLetter a && isAsciiLetter b && c == ' ' then (d :: rest).reverse
    else l
  | [a, b, c] =>
    if isAsciiLetter a && isAsciiLetter b && c == ' ' then [] else l
  | _ => l

/-- `.replace(/:\d{2}$/, '')`: drop a trailing colon-plus-two-digits. -/
def stripSecs (l : List Char) : List Char :=
  match l.reverse with
  | a :: b :: c :: rest =>
    if isDigitCh a && isDigitCh b && c == ':' then rest.reverse else l
  | _ => l

/-- `timeStr.match(/(AM|PM)/i)`: first case-insensitive occurrence of
`AM`/`PM`; `some true` means the captured marker is `PM`. -/
def findAmPm : List Char → Option Bool
  | [] => none
  | c1 :: rest =>
    match rest with
    | [] => none
    | c2 :: _ =>
      if jsUpperCh c1 == 'A' && jsUpperCh c2 == 'M' then some false
      else if jsUpperCh c1 == 'P' && jsUpperCh c2 == 'M' then some true
      else findAmPm rest

/-- `.replace(/(AM|PM)/i, '')`: remove the first case-insensitive
occurrence of `AM`/`PM`. -/
def removeAmPm : List Char → List Char
  | [] => []
  | c1 :: rest =>
    match rest with
    | [] => [c1]
    | c2 :: rest' =>
      if (jsUpperCh c1 == 'A' || jsUpperCh c1 == 'P') && jsUpperCh c2 == 'M' then rest'
      else c1 :: removeAmPm rest

/-- `/^\d{1,2}:\d{2}$/` together with the subsequent `split(':')`: returns
the hour and minute digit groups when the whole list has that shape. -/
def hmShape : List Char → Option (List Char × List Char)
  | [a, ':', c, d] =>
    if isDigitCh a && isDigitCh c && isDigitCh d then some ([a], [c, d]) else none
  | [a, b, ':', c, d] =>
    if isDigitCh a && isDigitCh b && isDigitCh c && isDigitCh d then
      some ([a, b], [c, d])
    else none
  | _ => none

/-- `hour.toString()` where `hour` may be JS `NaN` (modelled as `none`). -/
def hourRepr : Option Int → List Char
  | some i => (toString i).data
  | none => ['N', 'a', 'N']

/-- 12h→24h hour adjustment of `parsePGHLTime` (`PM` adds 12 except for 12,
`12 AM` becomes 0), applied only when the hour parsed to a number. -/
def adjustHour (isPM : Bool) : Option Int → Option Int
  | some h =>
    if isPM && h ≠ 12 then some (h + 12)
    else if !isPM && h == 12 then some 0
    else some h
  | none => none

/-- `parsePGHLTime` from `src/utils/date-parser.ts`.  A thrown `Error` is
modelled as `Except.error` carrying the message. -/
def parsePGHLTime (timeStr : String) : Except String String :=
  let cleaned := stripSecs (stripTZ (jsTrimL timeStr.data))
  match findAmPm timeStr.data with
  | some isPM =>
    let cleaned2 := jsTrimL (removeAmPm cleaned)
    let parts := splitCh ':' cleaned2
    let hour := adjustHour isPM (jsParseInt (parts.headD []))
    let minStr :=
      match parts with
      | _ :: m :: _ => if m.isEmpty then ['0', '0'] else m
      | _ => ['0', '0']
    .ok ⟨padStart2 (hourRepr hour) ++ ':' :: padStart2 minStr⟩
  | none =>
    match hmShape cleaned with
    | some (h, m) => .ok ⟨padStart2 h ++ ':' :: m⟩
    | none =>
      .error ("Unable to parse time: \"" ++ timeStr ++
        "\". Expected formats: \"H:MM AM/PM\" or \"HH:MM\"")

/-! ## `src/utils/date-parser.ts` — `normalizeTeamName` / `teamNamesMatch` -/

/-- `.replace(/[^\w\s]/g, '')`: keep only word characters and whitespace. -/
def filterPunct (l : List Char) : List Char :=
  l.filter (fun c => isWordCh c || isJsWs c)

/-- `.replace(/\s+/g, ' ')`: collapse every whitespace run to one space
(of a run only the last character survives, as a space — the same result
as replacing each maximal run). -/
def collapseWs : List Char → List Char
  | [] => []
  | c1 :: rest =>
    match rest with
    | [] => [if isJsWs c1 then ' ' else c1]
    | c2 :: _ =>
      if isJsWs c1 && isJsWs c2 then collapseWs rest
      else (if isJsWs c1 then ' ' else c1) :: collapseWs rest

/-- `normalizeTeamName` from `src/utils/date-parser.ts`. -/
def normalizeTeamName (name : String) : String :=
  ⟨jsTrimL (collapseWs (filterPunct (name.data.map jsLowerCh)))⟩

/-- `teamNamesMatch` from `src/utils/date-parser.ts`. -/
def teamNamesMatch (input canonical : String) : Bool :=
  let normalizedInput := normalizeTeamName input
  let normalizedCanonical := normalizeTeamName canonical
  if normalizedInput == normalizedCanonical then true
  else if jsIncludes normalizedInput normalizedCanonical then true
  else false

/-! ## `src/utils/date-parser.ts` — `parsePGHLDate` -/

/-- Gregorian leap year (used only for non-negative years here). -/
def isLeap (y : Int) : Bool :=
  (y % 4 == 0 && y % 100 != 0) || y % 400 == 0

/-- Length of month `m` (1–12) of year `y`. -/
def daysInMonth (y : Int) (m : Nat) : Nat :=
  match m with
  | 1 => 31
  | 2 => if isLeap y then 29 else 28
  | 3 => 31
  | 4 => 30
  | 5 => 31
  | 6 => 30
  | 7 => 31
  | 8 => 31
  | 9 => 30
  | 10 => 31
  | 11 => 30
  | 12 => 31
  | _ => 0

/-- Day of week of a Gregorian date (0 = Sunday), Sakamoto's method;
accurate for the positive years the schedules live in. -/
def dayOfWeek (y : Int) (m d : Nat) : Nat :=
  let t := [0, 3, 2, 5, 0, 3, 5, 1, 4, 6, 2, 4]
  let y2 := if m < 3 then y - 1 else y
  ((y2 + y2 / 4 - y2 / 100 + y2 / 400 + (t.getD (m - 1) 0) + d) % 7).toNat

/-- en-US abbreviated weekday names, index 0 = Sunday. -/
def weekdayAbbrs : List String := ["Sun", "Mon", "Tue", "Wed", "Thu", "Fri", "Sat"]

/-- en-US abbreviated month names, index 0 = January. -/
def monthAbbrs : List String :=
  ["Jan", "Feb", "Mar", "Apr", "May", "Jun",
   "Jul", "Aug", "Sep", "Oct", "Nov", "Dec"]

/-- Case-insensitive weekday-abbreviation token (date-fns `EEE`). -/
def parseWeekdayTok (w : List Char) : Option Nat :=
  weekdayAbbrs.findIdx? (fun a => a.data.map jsLowerCh == w.map jsLowerCh)

/-- Case-insensitive month-abbreviation token (date-fns `MMM`); returns the
1-based month number. -/
def parseMonthTok (mo : List Char) : Option Nat :=
  (monthAbbrs.findIdx? (fun a => a.data.map jsLowerCh == mo.map jsLowerCh)).map (· + 1)

/-- One- or two-digit numeric token (date-fns `dd`, `MM`, `M`, `d`). -/
def parseNum2Tok (l : List Char) : Option Nat :=
  match l with
  | [a] => if isDigitCh a then some (a.toNat - 48) else none
  | [a, b] =>
    if isDigitCh a && isDigitCh b then some ((a.toNat - 48) * 10 + (b.toNat - 48))
    else none
  | _ => none

/-- One- to four-digit numeric token (date-fns `yyyy`). -/
def parseNum4Tok (l : List Char) : Option Nat :=
  if l.length = 0 ∨ 4 < l.length then none
  else if l.all isDigitCh then
    some (l.foldl (fun acc c => acc * 10 + (c.toNat - 48)) 0)
  else none

/-- The `new Date(year, 0, 1)` reference-date quirk: constructor years 0–99
are interpreted as 1900–1999. -/
def jsDateRefYear (y : Int) : Int := if 0 ≤ y ∧ y ≤ 99 then 1900 + y else y

/-- Modelled from the library semantics of
`parse(dateStr, 'EEE MMM dd', new Date(year, 0, 1))` (date-fns): the three
space-separated tokens are matched case-insensitively, the day is validated
against the month's length in the reference year, the input must be fully
consumed, and an inconsistent weekday token does not change the resulting
month/day (the month and day-of-month setters determine the date).  Returns
the parsed (month, day). -/
def dateFnsParseEEEMMMdd (s : List Char) (refYear : Int) : Option (Nat × Nat) :=
  match splitCh ' ' s with
  | [w, mo, dd] =>
    match parseWeekdayTok w, parseMonthTok mo, parseNum2Tok dd with
    | some _, some m, some d =>
      if 1 ≤ d ∧ d ≤ daysInMonth refYear m then some (m, d) else none
    | _, _, _ => none
  | _ => none

/-- Modelled from the library semantics of date-fns
`parse(dateStr, 'MM/dd/yyyy', …)` / `parse(dateStr, 'M/d/yyyy', …)` (both
numeric-token formats accept one or two digits, so the two source branches
parse the same inputs): slash-separated month/day/year with range
validation.  Returns (year, month, day). -/
def parseSlashDate (s : List Char) : Option (Int × Nat × Nat) :=
  match splitCh '/' s with
  | [moL, dL, yL] =>
    match parseNum2Tok moL, parseNum2Tok dL, parseNum4Tok yL with
    | some mo, some d, some y =>
      if 1 ≤ y ∧ 1 ≤ mo ∧ mo ≤ 12 ∧ 1 ≤ d ∧ d ≤ daysInMonth (Int.ofNat y) mo then
        some (Int.ofNat y, mo, d)
      else none
    | _, _, _ => none
  | _ => none

/-- `/^\d{4}-\d{2}-\d{2}$/`. -/
def isIsoShape (l : List Char) : Bool :=
  match l with
  | [a, b, c, d, '-', e, f, '-', g, h] =>
    isDigitCh a && isDigitCh b && isDigitCh c && isDigitCh d &&
    isDigitCh e && isDigitCh f && isDigitCh g && isDigitCh h
  | _ => false

/-- Decimal digits of `n`, zero-padded to width 2 (date-fns `MM`/`dd`). -/
def pad2Nat (n : Nat) : List Char :=
  if n < 10 then ['0', Char.ofNat (48 + n)] else (toString n).data

/-- Decimal digits of `n`, zero-padded to width 4 (date-fns `yyyy`). -/
def pad4Nat (n : Nat) : List Char :=
  List.replicate (4 - (toString n).data.length) '0' ++ (toString n).data

/-- `format(date, 'yyyy-MM-dd')` of a calendar date (years of interest are
positive, so the year is rendered from its absolute value). -/
def isoDateStr (y : Int) (m d : Nat) : String :=
  ⟨pad4Nat y.toNat ++ '-' :: (pad2Nat m ++ '-' :: pad2Nat d)⟩

/-- `parsePGHLDate` from `src/utils/date-parser.ts`.  The first branch's
round trip through `TZDate`/`format` in the `America/Los_Angeles` timezone
is modelled as the identity on the parsed calendar date, which is its
behavior when the process-local timezone is the Pacific timezone the code
pins everywhere.  A thrown `Error` is modelled as `Except.error`. -/
def parsePGHLDate (dateStr season : String) : Except String String :=
  let yearOpt := jsParseInt ((splitCh '-' season.data).headD [])
  let fmt1 : Option String :=
    match yearOpt with
    | some y =>
      match dateFnsParseEEEMMMdd dateStr.data (jsDateRefYear y) with
      | some (m, d) => some (isoDateStr (jsDateRefYear y) m d)
      | none => none
    | none => none
  match fmt1 with
  | some r => .ok r
  | none =>
    match parseSlashDate dateStr.data with
    | some (y, m, d) => .ok (isoDateStr y m d)
    | none =>
      if isIsoShape dateStr.data then .ok dateStr
      else
        .error ("Unable to parse date: \"" ++ dateStr ++
          "\". Expected formats: \"EEE MMM dd\", \"MM/dd/yyyy\", or \"YYYY-MM-DD\"")

/-! ## `src/models/game.ts` -/

/-- The `Game` entity.  Optional TypeScript fields are `Option`s; a field
assigned `x || undefined` is `none` exactly when `x` is empty. -/
structure Game where
  date : String
  time : String
  home : String
  away : String
  venue : String
  division : String
  status : Option String := none
  rink : Option String := none
  gameType : Option String := none
deriving Repr, DecidableEq

/-! ## `src/scraper/ical-scraper.ts` -/

/-- The `America/Los_Angeles` wall-clock reading of an event's `DTSTART`.
`Intl.DateTimeFormat` with `timeZone: 'America/Los_Angeles'` renders a
valid JS `Date` through exactly this projection, so the embedding takes the
projected fields as the input. -/
structure PacificDateTime where
  year : Nat
  month : Nat
  day : Nat
  hour : Nat
  minute : Nat
deriving Repr, DecidableEq

/-- One parsed iCal node: `event.type`, `event.summary || ''`,
`event.location || ''` and `event.start`; `start = none` models a missing
or invalid timestamp (JS `Invalid Date`). -/
structure ICalEvent where
  type : String
  summary : String
  location : String
  start : Option PacificDateTime
deriving Repr, DecidableEq

/-- `formatDate` from `src/scraper/ical-scraper.ts`: `en-CA` formatting of
the event start in Pacific time, i.e. `YYYY-MM-DD`; formatting an invalid
date throws a `RangeError`. -/
def formatDate : Option PacificDateTime → Except String String
  | some dt => .ok ⟨pad4Nat dt.year ++ '-' :: (pad2Nat dt.month ++ '-' :: pad2Nat dt.day)⟩
  | none => .error "Invalid time value"

/-- `formatTime` from `src/scraper/ical-scraper.ts`: `en-US`
`{hour: 'numeric', minute: '2-digit', hour12: true}` formatting of the
event start in Pacific time, e.g. `"7:00 PM"` (newer ICU prints a narrow
no-break space before the marker; either way the separator is a space,
not part of an `HH:MM` shape). -/
def formatTime : Option PacificDateTime → Except String String
  | some dt =>
    let h12 := if dt.hour % 12 == 0 then 12 else dt.hour % 12
    let marker := if dt.hour < 12 then "AM" else "PM"
    .ok (⟨(toString h12).data ++ ':' :: pad2Nat dt.minute⟩ ++ " " ++ marker)
  | none => .error "Invalid time value"

/-- The leftmost match of `/(\d+u\s+A{1,3})/` starting at the head of the
list: a digit run, `u`, a whitespace run, then up to three `A`s. -/
def divisionMatchAt (l : List Char) : Option (List Char) :=
  let ds := l.takeWhile isDigitCh
  if ds.isEmpty then none
  else
    match l.drop ds.length with
    | 'u' :: r2 =>
      let ws := r2.takeWhile isJsWs
      if ws.isEmpty then none
      else
        let as := (r2.drop ws.length).takeWhile (· == 'A')
        if as.isEmpty then none
        else some (ds ++ 'u' :: (ws ++ as.take 3))
    | _ => none

/-- `.match(/(\d+u\s+A{1,3})/)`: leftmost match anywhere in the list. -/
def findDivision : List Char → Option (List Char)
  | [] => none
  | c :: rest =>
    match divisionMatchAt (c :: rest) with
    | some m => some m
    | none => findDivision rest

/-- The summary-splitting step of `parseICalEvent`: `" @ "` means
away-at-home, `" vs "` means away-versus-home, anything else falls back to
the whole summary for both teams.  The error branches are unreachable
(a found separator always yields at least two parts) and mirror the JS
`TypeError` a failed destructuring would raise. -/
def splitSummary (summary : List Char) : Except String (List Char × List Char × String) :=
  if jsIncludesL (" @ ").data summary then
    match jsSplitL (" @ ").data summary with
    | a :: h :: _ => .ok (jsTrimL a, jsTrimL h, "away")
    | _ => .error "TypeError"
  else if jsIncludesL (" vs ").data summary then
    match jsSplitL (" vs ").data summary with
    | a :: h :: _ => .ok (jsTrimL a, jsTrimL h, "home")
    | _ => .error "TypeError"
  else
    .ok (jsTrimL summary, jsTrimL summary, "neutral")

/-- `parseICalEvent` from `src/scraper/ical-scraper.ts`. -/
def parseICalEvent (event : ICalEvent) : Except String Game := do
  let (awayTeam, homeTeam, gameType) ← splitSummary event.summary.data
  let (facility, rink) :=
    if jsIncludesL (" / ").data event.location.data then
      match jsSplitL (" / ").data event.location.data with
      | f :: r :: _ => (jsTrimL f, jsTrimL r)
      | _ => (event.location.data, [])
    else (event.location.data, [])
  let base := if awayTeam.isEmpty then homeTeam else awayTeam
  let division := (findDivision base).getD []
  let date ← formatDate event.start
  let time ← formatTime event.start
  .ok
    { date := date
      time := time
      home := ⟨homeTeam⟩
      away := ⟨awayTeam⟩
      venue := ⟨facility⟩
      division := ⟨division⟩
      rink := if rink.isEmpty then none else some ⟨rink⟩
      -- `gameType || undefined`: the tag is always one of the nonempty
      -- strings "away"/"home"/"neutral", hence always `some`.
      gameType := some gameType }

/-- Stable insertion step for `sortGames`: the new element goes in front
of the first entry whose date is not smaller, so earlier elements keep
their relative order on ties. -/
def insertByDate (g : Game) : List Game → List Game
  | [] => [g]
  | h :: t => if h.date < g.date then h :: insertByDate g t else g :: h :: t

/-- `games.sort((a, b) => a.date.localeCompare(b.date))`: JS `Array.sort`
is a stable sort, and on ISO `YYYY-MM-DD` strings `localeCompare` orders
like the character comparison; the unique stable result is modelled by a
stable insertion sort on `Game.date`. -/
def sortGames : List Game → List Game
  | [] => []
  | g :: rest => insertByDate g (sortGames rest)

/-- One iteration of the event loop of `fetchScheduleFromICal`: skip
non-`VEVENT` nodes, append a successfully parsed game, drop an event whose
parse throws. -/
def pushEvent (acc : List Game) (event : ICalEvent) : List Game :=
  if event.type ≠ "VEVENT" then acc
  else
    match parseICalEvent event with
    | .ok game => acc ++ [game]
    | .error _ => acc

/-- The event loop of `fetchScheduleFromICal`: keep `VEVENT` nodes, parse
each one independently, drop the ones whose parse throws, then sort by
date.  (The surrounding HTTP fetch is I/O and is not part of the parsing
semantics.) -/
def parseICalFeed (events : List ICalEvent) : List Game :=
  let games := events.foldl pushEvent []
  sortGames games

/-! ## `src/scraper/schedule.ts` -/

/-- Matcher for `/^(.*?\d+u\s+[A]+)[A-Za-z0-9]+$/` at a fixed start of the
lazy group's tail: given the list remaining after the lazy `.*?` stem,
return the kept part `\d+u\s+[A]+` of the group when the regex matches
from here to the end of the string.  The greedy `[A]+` gives back one `A`
to the mandatory trailing `[A-Za-z0-9]+` when nothing else follows. -/
def dupCodeMatchAt (rest : List Char) : Option (List Char) :=
  let ds := rest.takeWhile isDigitCh
  if ds.isEmpty then none
  else
    match rest.drop ds.length with
    | 'u' :: r2 =>
      let ws := r2.takeWhile isJsWs
      if ws.isEmpty then none
      else
        let r3 := r2.drop ws.length
        let as := r3.takeWhile (· == 'A')
        if as.isEmpty then none
        else
          let afterAs := r3.drop as.length
          if !afterAs.isEmpty && afterAs.all isAlnumCh then
            some (ds ++ 'u' :: (ws ++ as))
          else if 2 ≤ as.length && afterAs.isEmpty then
            some (ds ++ 'u' :: (ws ++ as.dropLast))
          else none
    | _ => none

/-- Scan for the shortest lazy stem making `dupCodeMatchAt` succeed,
returning the replaced list (stem plus kept group).  At the empty suffix
no match is possible (the pattern needs at least one digit), so the scan
answers `none` there directly. -/
def dupCodeGo : List Char → List Char → Option (List Char)
  | _, [] => none
  | stemRev, c :: rest =>
    match dupCodeMatchAt (c :: rest) with
    | some kept => some (stemRev.reverse ++ kept)
    | none => dupCodeGo (c :: stemRev) rest

/-- `.replace(/^(.*?\d+u\s+[A]+)[A-Za-z0-9]+$/, '$1')`: replace the whole
string by the captured group when the anchored pattern matches; otherwise
leave the string unchanged. -/
def stripDupCode (l : List Char) : List Char :=
  match dupCodeGo [] l with
  | some replaced => replaced
  | none => l

/-- `cleanTeamName` from `src/scraper/schedule.ts`.  (When the text
contains `" vs "` the always-successful `/([^]+?)\s*$/` probe and the
always-true `parts.length > 0` check reduce to taking the trimmed first
`" vs "`-separated part.) -/
def cleanTeamName (rawText : String) : String :=
  let text := jsTrimL rawText.data
  let text :=
    if jsIncludesL (" vs ").data text then
      jsTrimL ((jsSplitL (" vs ").data text).headD [])
    else text
  ⟨jsTrimL (stripDupCode text)⟩

/-- The header-resolved column indices of `parseScheduleTable`
(`findIndex` results; `none` models `-1`). -/
structure ColIdx where
  dateIdx : Option Nat
  timeIdx : Option Nat
  homeIdx : Option Nat
  awayIdx : Option Nat
  venueIdx : Option Nat
  statusIdx : Option Nat
deriving Repr, DecidableEq

/-- The column lookups of `parseScheduleTable` over the lowercased header
cells. -/
def findColumns (headers : List String) : ColIdx :=
  { dateIdx := headers.findIdx? (fun h => jsIncludes "date" h)
    timeIdx := headers.findIdx? (fun h => jsIncludes "time" h)
    homeIdx := headers.findIdx? (fun h => jsIncludes "home" h)
    awayIdx := headers.findIdx? (fun h => jsIncludes "away" h || jsIncludes "visitor" h)
    venueIdx := headers.findIdx?
      (fun h => jsIncludes "venue" h || jsIncludes "location" h || jsIncludes "rink" h)
    statusIdx := headers.findIdx? (fun h => jsIncludes "status" h || jsIncludes "result" h) }

/-- `row[idx] || ''` where `idx` may be `-1`. -/
def cellAt (row : List String) (idx : Option Nat) : String :=
  match idx with
  | some i => (row.getD i "")
  | none => ""

/-- The body of the per-row `try` block of `parseScheduleTable`: `none`
when the row is skipped by a `continue` or when a parse throw is caught by
the row-level `catch`. -/
def parseScheduleRow (cols : ColIdx) (division season : String) (row : List String) :
    Option Game :=
  let dateStr := cellAt row cols.dateIdx
  let timeStr := cellAt row cols.timeIdx
  let home := cleanTeamName (cellAt row cols.homeIdx)
  let away := cleanTeamName (cellAt row cols.awayIdx)
  let venue := cellAt row cols.venueIdx
  let status := cellAt row cols.statusIdx
  if dateStr.isEmpty || home.isEmpty || away.isEmpty then none
  else if jsLower home == "home" || jsLower dateStr == "date" then none
  else
    match parsePGHLDate dateStr season with
    | .error _ => none
    | .ok date =>
      match (if timeStr.isEmpty then .ok "" else parsePGHLTime timeStr) with
      | .error _ => none
      | .ok time =>
        let (venueName, rinkName) :=
          if jsIncludesL (" - ").data venue.data then
            let parts := jsSplitL (" - ").data venue.data
            (jsTrimL (parts.headD []),
             jsTrimL ((List.intercalate (" - ").data (parts.drop 1))))
          else (venue.data, [])
        some
          { date := date
            time := time
            home := home
            away := away
            venue := ⟨venueName⟩
            division := division
            rink := if rinkName.isEmpty then none else some ⟨rinkName⟩
            status := if status.isEmpty then none else some status
            gameType := none }

/-- One iteration of the row loop of `parseScheduleTable`: append a
successfully parsed row's game, drop a skipped or throwing row. -/
def pushRow (cols : ColIdx) (division season : String) (acc : List Game)
    (row : List String) : List Game :=
  match parseScheduleRow cols division season row with
  | some game => acc ++ [game]
  | none => acc

/-- `parseScheduleTable` from `src/scraper/schedule.ts`.  The thrown
`Error` for unrecognized headers is `Except.error`; the row loop
accumulates the successfully parsed rows. -/
def parseScheduleTable (tableData : List (List String)) (division season : String) :
    Except String (List Game) :=
  if tableData.length < 2 then .ok []
  else
    let headers := (tableData.headD []).map jsLower
    let cols := findColumns headers
    if cols.dateIdx.isNone || cols.homeIdx.isNone || cols.awayIdx.isNone then
      .error "Schedule table format not recognized"
    else
      .ok ((tableData.drop 1).foldl (pushRow cols division season) [])

/-! ## `src/scraper/discovery.ts` -/

/-- The `SelectOption` model (`src/models/select-option.ts`). -/
structure SelectOption where
  value : String
  label : String
  selected : Bool
deriving Repr, DecidableEq

/-- The `ScheduleOptions` container (`src/models/schedule-options.ts`). -/
structure ScheduleOptions where
  seasons : List SelectOption
  divisions : List SelectOption
  teams : List SelectOption
deriving Repr, DecidableEq

/-- `findOptionByLabel` from `src/scraper/discovery.ts`: case-insensitive
exact match first, then case-insensitive substring containment. -/
def findOptionByLabel (options : List SelectOption) (label : String) : Option SelectOption :=
  let normalizedLabel := jsTrim (jsLower label)
  match options.find? (fun opt => jsLower opt.label == normalizedLabel) with
  | some exactMatch => some exactMatch
  | none => options.find? (fun opt => jsIncludes normalizedLabel (jsLower opt.label))

/-- The browser-backed option sources of `getScheduleOptions`
(`getSeasonOptions` / `getDivisionOptions` / `getTeamOptions`), abstracted
as oracle functions of the already-resolved identifiers. -/
structure DiscoveryEnv where
  seasons : List SelectOption
  divisionsFor : String → List SelectOption
  teamsFor : String → String → List SelectOption

/-- `getScheduleOptions` from `src/scraper/discovery.ts`, with the page
session abstracted by a `DiscoveryEnv`.  The in-place `selected` mutation
becomes a functional update of the option lists. -/
def getScheduleOptions (env : DiscoveryEnv)
    (seasonLabel divisionLabel : Option String) : ScheduleOptions :=
  let seasons := env.seasons
  match seasonLabel with
  | none => { seasons := seasons, divisions := [], teams := [] }
  | some lbl =>
    match findOptionByLabel seasons lbl with
    | none => { seasons := seasons, divisions := [], teams := [] }
    | some seasonOption =>
      let seasonValue := seasonOption.value
      let seasons := seasons.map (fun s => { s with selected := s.value == seasonValue })
      let divisions := env.divisionsFor seasonValue
      match divisionLabel with
      | none => { seasons := seasons, divisions := divisions, teams := [] }
      | some dlbl =>
        match findOptionByLabel divisions dlbl with
        | none => { seasons := seasons, divisions := divisions, teams := [] }
        | some divisionOption =>
          let divisionValue := divisionOption.value
          let divisions :=
            divisions.map (fun d => { d with selected := d.value == divisionValue })
          let teams := env.teamsFor seasonValue divisionValue
          { seasons := seasons, divisions := divisions, teams := teams }

/-! ## Normalization lemmas (for the idempotence claim) -/

theorem toNat_ofNat_upper_shift {n : Nat} (h1 : 65 ≤ n) (h2 : n ≤ 90) :
    (Char.ofNat (n + 32)).toNat = n + 32 := by
  have hv : Nat.isValidChar (n + 32) := by left; omega
  simp [Char.ofNat, Char.ofNatAux, hv, Char.toNat, UInt32.toNat, BitVec.toNat_ofNatLt]

theorem jsLowerCh_idem (c : Char) : jsLowerCh (jsLowerCh c) = jsLowerCh c := by
  simp only [jsLowerCh, Char.toLower]
  by_cases h : c.toNat ≥ 65 ∧ c.toNat ≤ 90
  · rw [if_pos h, if_neg]
    rw [toNat_ofNat_upper_shift h.1 h.2]
    omega
  · rw [if_neg h, if_neg h]

/-- `noAdjWs l` holds when `l` has no two adjacent whitespace characters. -/
def noAdjWs : List Char → Bool
  | [] => true
  | c1 :: rest =>
    match rest with
    | [] => true
    | c2 :: _ => !(isJsWs c1 && isJsWs c2) && noAdjWs rest

theorem noAdjWs_cons₂ (c1 c2 : Char) (r : List Char) :
    noAdjWs (c1 :: c2 :: r) = (!(isJsWs c1 && isJsWs c2) && noAdjWs (c2 :: r)) := rfl

theorem collapseWs_single (c : Char) :
    collapseWs [c] = [if isJsWs c then ' ' else c] := rfl

theorem collapseWs_cons₂ (c1 c2 : Char) (r : List Char) :
    collapseWs (c1 :: c2 :: r) =
      if isJsWs c1 && isJsWs c2 then collapseWs (c2 :: r)
      else (if isJsWs c1 then ' ' else c1) :: collapseWs (c2 :: r) := rfl

theorem noAdjWs_tail {c : Char} {l : List Char} (h : noAdjWs (c :: l) = true) :
    noAdjWs l = true := by
  cases l with
  | nil => rfl
  | cons c2 r =>
    rw [noAdjWs_cons₂, Bool.and_eq_true] at h
    exact h.2

theorem noAdjWs_append_right {l1 l2 : List Char}
    (h : noAdjWs (l1 ++ l2) = true) : noAdjWs l2 = true := by
  induction l1 with
  | nil => exact h
  | cons c r ih => exact ih (noAdjWs_tail h)

theorem noAdjWs_append_left {l1 l2 : List Char}
    (h : noAdjWs (l1 ++ l2) = true) : noAdjWs l1 = true := by
  induction l1 with
  | nil => rfl
  | cons c r ih =>
    cases r with
    | nil => rfl
    | cons c2 r2 =>
      rw [List.cons_append, List.cons_append, noAdjWs_cons₂, Bool.and_eq_true] at h
      rw [noAdjWs_cons₂, Bool.and_eq_true]
      exact ⟨h.1, ih (by rw [List.cons_append]; exact h.2)⟩

theorem collapseWs_cons_not_ws {c : Char} {l : List Char} (h : isJsWs c = false) :
    collapseWs (c :: l) = c :: collapseWs l := by
  cases l with
  | nil => rw [collapseWs_single, if_neg (by simp [h])]; rfl
  | cons c2 r =>
    rw [collapseWs_cons₂, if_neg (by simp [h]), if_neg (by simp [h])]

theorem collapseWs_ne_nil (c : Char) (l : List Char) : collapseWs (c :: l) ≠ [] := by
  induction l generalizing c with
  | nil => rw [collapseWs_single]; simp
  | cons c2 r ih =>
    rw [collapseWs_cons₂]
    by_cases hb : (isJsWs c && isJsWs c2) = true
    · rw [if_pos hb]; exact ih c2
    · rw [if_neg hb]; simp

theorem collapseWs_mem {c : Char} {l : List Char} (h : c ∈ collapseWs l) :
    c = ' ' ∨ (c ∈ l ∧ isJsWs c = false) := by
  induction l with
  | nil => simp [collapseWs] at h
  | cons c1 rest ih =>
    cases rest with
    | nil =>
      rw [collapseWs_single, List.mem_singleton] at h
      by_cases hw : isJsWs c1
      · left; simpa [hw] using h
      · right; rw [if_neg hw] at h; subst h; simp [hw]
    | cons c2 r2 =>
      rw [collapseWs_cons₂] at h
      by_cases hb : (isJsWs c1 && isJsWs c2) = true
      · rw [if_pos hb] at h
        rcases ih h with h1 | h2
        · exact Or.inl h1
        · exact Or.inr ⟨List.mem_cons_of_mem _ h2.1, h2.2⟩
      · rw [if_neg hb] at h
        rw [List.mem_cons] at h
        rcases h with h | h
        · by_cases hw : isJsWs c1
          · left; simpa [hw] using h
          · right; rw [if_neg hw] at h; subst h; simp [hw]
        · rcases ih h with h1 | h2
          · exact Or.inl h1
          · exact Or.inr ⟨List.mem_cons_of_mem _ h2.1, h2.2⟩

theorem collapseWs_noAdjWs (l : List Char) : noAdjWs (collapseWs l) = true := by
  induction l with
  | nil => rfl
  | cons c1 rest ih =>
    cases rest with
    | nil => rw [collapseWs_single]; rfl
    | cons c2 r2 =>
      rw [collapseWs_cons₂]
      by_cases hb : (isJsWs c1 && isJsWs c2) = true
      · rw [if_pos hb]; exact ih
      · rw [if_neg hb]
        by_cases hw2 : isJsWs c2 = true
        · have hw1 : isJsWs c1 = false := by
            cases h1 : isJsWs c1
            · rfl
            · exact absurd (by rw [h1, hw2]; rfl) hb
          rw [if_neg (by simp [hw1])]
          cases hout : collapseWs (c2 :: r2) with
          | nil => rfl
          | cons y ys =>
            rw [noAdjWs_cons₂, Bool.and_eq_true]
            refine ⟨by simp [hw1], ?_⟩
            rw [← hout]; exact ih
        · have hw2f : isJsWs c2 = false := by simpa using hw2
          rw [collapseWs_cons_not_ws hw2f] at ih ⊢
          rw [noAdjWs_cons₂, Bool.and_eq_true]
          exact ⟨by simp [hw2f], ih⟩

theorem collapseWs_eq_self {l : List Char}
    (hsp : ∀ c ∈ l, isJsWs c = true → c = ' ')
    (hadj : noAdjWs l = true) : collapseWs l = l := by
  induction l with
  | nil => rfl
  | cons c1 rest ih =>
    cases rest with
    | nil =>
      rw [collapseWs_single]
      by_cases hw : isJsWs c1
      · rw [if_pos hw, hsp c1 (by simp) hw]
      · rw [if_neg hw]
    | cons c2 r2 =>
      have hb : (isJsWs c1 && isJsWs c2) = false := by
        rw [noAdjWs_cons₂, Bool.and_eq_true] at hadj
        have hx := hadj.1
        rwa [Bool.not_eq_true'] at hx
      rw [collapseWs_cons₂, if_neg (by simp [hb])]
      have ihr := ih (fun c hc hw => hsp c (List.mem_cons_of_mem _ hc) hw) (noAdjWs_tail hadj)
      rw [ihr]
      by_cases hw : isJsWs c1
      · rw [if_pos hw, hsp c1 (by simp) hw]
      · rw [if_neg hw]

theorem dropWhile_head_not {p : Char → Bool} {l : List Char} {y : Char}
    (h : (l.dropWhile p).head? = some y) : p y = false := by
  induction l with
  | nil => simp [List.dropWhile] at h
  | cons c r ih =>
    by_cases hc : p c
    · rw [List.dropWhile_cons_of_pos hc] at h; exact ih h
    · rw [List.dropWhile_cons_of_neg (by simpa using hc)] at h
      simp only [List.head?_cons, Option.some.injEq] at h
      subst h; simpa using hc

theorem trimRight_pref (l : List Char) : ∃ t, trimRightL l ++ t = l := by
  obtain ⟨t, ht⟩ := List.dropWhile_suffix (l := l.reverse) isJsWs
  refine ⟨t.reverse, ?_⟩
  have : (t ++ l.reverse.dropWhile isJsWs).reverse = l.reverse.reverse := by rw [ht]
  simpa [trimRightL, List.reverse_append] using this

theorem mem_trimLeftL {c : Char} {l : List Char} (h : c ∈ trimLeftL l) : c ∈ l :=
  (List.dropWhile_suffix isJsWs).subset h

theorem mem_trimRightL {c : Char} {l : List Char} (h : c ∈ trimRightL l) : c ∈ l := by
  obtain ⟨t, ht⟩ := trimRight_pref l
  rw [← ht]
  exact List.mem_append_left _ h

theorem mem_jsTrimL {c : Char} {l : List Char} (h : c ∈ jsTrimL l) : c ∈ l :=
  mem_trimLeftL (mem_trimRightL h)

theorem noAdjWs_trimLeftL {l : List Char} (h : noAdjWs l = true) :
    noAdjWs (trimLeftL l) = true := by
  obtain ⟨t, ht⟩ := List.dropWhile_suffix (l := l) isJsWs
  exact noAdjWs_append_right (ht ▸ h)

theorem noAdjWs_trimRightL {l : List Char} (h : noAdjWs l = true) :
    noAdjWs (trimRightL l) = true := by
  obtain ⟨t, ht⟩ := trimRight_pref l
  exact noAdjWs_append_left (ht ▸ h)

theorem noAdjWs_jsTrimL {l : List Char} (h : noAdjWs l = true) :
    noAdjWs (jsTrimL l) = true :=
  noAdjWs_trimRightL (noAdjWs_trimLeftL h)

theorem jsTrimL_def (l : List Char) : jsTrimL l = trimRightL (trimLeftL l) := rfl

theorem trimRightL_def (l : List Char) :
    trimRightL l = (l.reverse.dropWhile isJsWs).reverse := rfl

theorem trimLeftL_eq_self {l : List Char}
    (h : ∀ y, l.head? = some y → isJsWs y = false) : trimLeftL l = l := by
  cases l with
  | nil => rfl
  | cons c r =>
    have hc : isJsWs c = false := h c (by simp)
    show List.dropWhile isJsWs (c :: r) = c :: r
    rw [List.dropWhile_cons, hc]
    simp

theorem trimRightL_eq_self {l : List Char}
    (h : ∀ y, l.getLast? = some y → isJsWs y = false) : trimRightL l = l := by
  have h2 : ∀ y, l.reverse.head? = some y → isJsWs y = false := by
    intro y hy
    exact h y (by rwa [List.head?_reverse] at hy)
  cases hr : l.reverse with
  | nil =>
    have hl : l = [] := by simpa using congrArg List.reverse hr
    rw [hl]; rfl
  | cons c r =>
    have hc : isJsWs c = false := h2 c (by rw [hr]; rfl)
    have hd : List.dropWhile isJsWs (c :: r) = c :: r := by
      rw [List.dropWhile_cons, hc]; simp
    rw [trimRightL_def, hr, hd, ← hr, List.reverse_reverse]

theorem jsTrimL_head_not_ws {l : List Char} {y : Char}
    (h : (jsTrimL l).head? = some y) : isJsWs y = false := by
  rw [jsTrimL_def] at h
  obtain ⟨t, ht⟩ := trimRight_pref (trimLeftL l)
  have hhead : (trimLeftL l).head? = some y := by
    rw [← ht]
    cases hl : trimRightL (trimLeftL l) with
    | nil => rw [hl] at h; cases h
    | cons a r =>
      rw [hl] at h
      simpa using h
  exact dropWhile_head_not hhead

theorem jsTrimL_last_not_ws {l : List Char} {y : Char}
    (h : (jsTrimL l).getLast? = some y) : isJsWs y = false := by
  rw [jsTrimL_def, trimRightL_def, List.getLast?_reverse] at h
  exact dropWhile_head_not h

theorem jsTrimL_idem (l : List Char) : jsTrimL (jsTrimL l) = jsTrimL l := by
  have h1 : trimLeftL (jsTrimL l) = jsTrimL l :=
    trimLeftL_eq_self (fun y hy => jsTrimL_head_not_ws hy)
  have h2 : trimRightL (jsTrimL l) = jsTrimL l :=
    trimRightL_eq_self (fun y hy => jsTrimL_last_not_ws hy)
  calc jsTrimL (jsTrimL l) = trimRightL (trimLeftL (jsTrimL l)) := jsTrimL_def _
    _ = trimRightL (jsTrimL l) := by rw [h1]
    _ = jsTrimL l := h2

theorem map_eq_self_of {f : Char → Char} {l : List Char}
    (h : ∀ c ∈ l, f c = c) : l.map f = l := by
  induction l with
  | nil => rfl
  | cons c r ih => simp [h c (by simp), ih (fun c hc => h c (List.mem_cons_of_mem _ hc))]

/-- List-level idempotence of the normalization pipeline
`trim ∘ collapse ∘ filter ∘ lowercase`. -/
theorem normalizeL_idem (l : List Char) :
    jsTrimL (collapseWs (filterPunct
      ((jsTrimL (collapseWs (filterPunct (l.map jsLowerCh)))).map jsLowerCh))) =
    jsTrimL (collapseWs (filterPunct (l.map jsLowerCh))) := by
  set L := jsTrimL (collapseWs (filterPunct (l.map jsLowerCh))) with hL
  have hchar : ∀ c ∈ L, c = ' ' ∨
      (jsLowerCh c = c ∧ (isWordCh c || isJsWs c) = true ∧ isJsWs c = false) := by
    intro c hc
    rcases collapseWs_mem (mem_jsTrimL (hL ▸ hc)) with h | ⟨hmem, hnotws⟩
    · exact Or.inl h
    · right
      rw [filterPunct, List.mem_filter] at hmem
      obtain ⟨hmap, hcond⟩ := hmem
      rw [List.mem_map] at hmap
      obtain ⟨c0, _, hc0⟩ := hmap
      exact ⟨by rw [← hc0]; exact jsLowerCh_idem c0, hcond, hnotws⟩
  have hmap : L.map jsLowerCh = L := by
    refine map_eq_self_of (fun c hc => ?_)
    rcases hchar c hc with h | ⟨h, _, _⟩
    · rw [h]; decide
    · exact h
  have hfilt : filterPunct L = L := by
    rw [filterPunct]
    refine List.filter_eq_self.mpr (fun c hc => ?_)
    rcases hchar c hc with h | ⟨_, h, _⟩
    · rw [h]; decide
    · exact h
  have hsp : ∀ c ∈ L, isJsWs c = true → c = ' ' := by
    intro c hc hws
    rcases hchar c hc with h | ⟨_, _, hnw⟩
    · exact h
    · rw [hws] at hnw; cases hnw
  have hadj : noAdjWs L = true := by
    rw [hL]
    exact noAdjWs_jsTrimL (collapseWs_noAdjWs _)
  have hcoll : collapseWs L = L := collapseWs_eq_self hsp hadj
  have htrim : jsTrimL L = L := by
    rw [hL]
    exact jsTrimL_idem _
  rw [hmap, hfilt, hcoll, htrim]

/-! ## Claim-side predicates -/

/-- The data-model invariant's shape for `Game.time`: a zero-padded
24-hour `HH:MM` string. -/
def isHHMM (s : String) : Bool :=
  match s.data with
  | [h1, h2, ':', m1, m2] =>
    isDigitCh h1 && isDigitCh h2 && isDigitCh m1 && isDigitCh m2 &&
    decide ((h1.toNat - 48) * 10 + (h2.toNat - 48) < 24) &&
    decide ((m1.toNat - 48) * 10 + (m2.toNat - 48) < 60)
  | _ => false

/-- A concrete well-formed feed event whose start is 7:00 PM Pacific. -/
def eveningEvent : ICalEvent :=
  { type := "VEVENT"
    summary := "Team A @ Team B"
    location := "Great Park Ice / Rink 1"
    start := some { year := 2025, month := 9, day := 13, hour := 19, minute := 0 } }

/-! ## Claims -/

/-- Claim C2 (code bug): the claim says an input already in 24-hour
`H:MM`/`HH:MM` shape is returned zero-padded, in particular
`parsePGHLTime "19:15" = "19:15"`; the code instead throws, because the
seconds-stripping replace `/:\d{2}$/` also deletes the minutes of a
seconds-less time, leaving `"19"`, which fails the `HH:MM` shape test. -/
theorem C2_parsePGHLTime_throws_on_plain_24h_time :
    parsePGHLTime "19:15" =
      .error "Unable to parse time: \"19:15\". Expected formats: \"H:MM AM/PM\" or \"HH:MM\"" := by
  decide

/-- Claim C1 (code bug): the feed pipeline emits `Game.time` in 12-hour
`h:MM AM/PM` form — for a 7:00 PM Pacific event the emitted game's `time`
is `"7:00 PM"`, which is not the zero-padded 24-hour `HH:MM` shape the
`Game` model documents. -/
theorem C1_feed_emits_non_HHMM_time :
    parseICalEvent eveningEvent =
      .ok
        { date := "2025-09-13"
          time := "7:00 PM"
          home := "Team B"
          away := "Team A"
          venue := "Great Park Ice"
          division := ""
          rink := some "Rink 1"
          gameType := some "away" } ∧
    isHHMM "7:00 PM" = false := by
  constructor
  · decide
  · decide

/-- Claim C10: `normalizeTeamName` is idempotent, and consequently
`teamNamesMatch n n` is `true` for every already-normalized non-empty
name `n`. -/
theorem C10_normalizeTeamName_idempotent :
    (∀ s : String, normalizeTeamName (normalizeTeamName s) = normalizeTeamName s) ∧
    (∀ n : String, normalizeTeamName n = n → n ≠ "" → teamNamesMatch n n = true) := by
  constructor
  · intro s
    exact congrArg String.mk (normalizeL_idem s.data)
  · intro n _ _
    simp [teamNamesMatch]

/-- Concrete instance of claim C10's statement. -/
theorem C10_witness :
    (normalizeTeamName (normalizeTeamName "Jr. Ducks 12u AA") =
      normalizeTeamName "Jr. Ducks 12u AA") ∧
    (normalizeTeamName "storm" = "storm" ∧ "storm" ≠ "" ∧
      teamNamesMatch "storm" "storm" = true) :=
  ⟨C10_normalizeTeamName_idempotent.1 "Jr. Ducks 12u AA",
   by decide, by decide,
   C10_normalizeTeamName_idempotent.2 "storm" (by decide) (by decide)⟩

/-- Claim C8: a supplied season label that matches no option — neither by
case-insensitive exact equality nor by case-insensitive substring
containment — makes the discovery call return with empty `divisions` and
`teams` (the call still produces a result); and whenever an exact match
exists, the resolver returns an exact match, never a mere substring
match. -/
theorem C8_unresolved_label_and_exact_preference :
    (∀ (env : DiscoveryEnv) (lbl : String) (divisionLabel : Option String),
      (∀ opt ∈ env.seasons,
        jsLower opt.label ≠ jsTrim (jsLower lbl) ∧
        jsIncludes (jsTrim (jsLower lbl)) (jsLower opt.label) = false) →
      getScheduleOptions env (some lbl) divisionLabel =
        { seasons := env.seasons, divisions := [], teams := [] }) ∧
    (∀ (opts : List SelectOption) (lbl : String),
      (∃ opt ∈ opts, jsLower opt.label = jsTrim (jsLower lbl)) →
      ∃ r, findOptionByLabel opts lbl = some r ∧
        jsLower r.label = jsTrim (jsLower lbl)) := by
  constructor
  · intro env lbl divisionLabel h
    have hex : env.seasons.find?
        (fun opt => jsLower opt.label == jsTrim (jsLower lbl)) = none := by
      rw [List.find?_eq_none]
      intro x hx
      simp only [beq_iff_eq]
      exact (h x hx).1
    have hsub : env.seasons.find?
        (fun opt => jsIncludes (jsTrim (jsLower lbl)) (jsLower opt.label)) = none := by
      rw [List.find?_eq_none]
      intro x hx
      simp [(h x hx).2]
    have hnone : findOptionByLabel env.seasons lbl = none := by
      rw [findOptionByLabel, hex, hsub]
    rw [getScheduleOptions, hnone]
  · intro opts lbl hex
    have hsome : (opts.find?
        (fun opt => jsLower opt.label == jsTrim (jsLower lbl))).isSome = true := by
      rw [List.find?_isSome]
      obtain ⟨opt, hmem, heq⟩ := hex
      exact ⟨opt, hmem, by simp [heq]⟩
    obtain ⟨r, hr⟩ := Option.isSome_iff_exists.mp hsome
    refine ⟨r, ?_, ?_⟩
    · rw [findOptionByLabel, hr]
    · have := List.find?_some hr
      simpa using this

/-- Concrete season list for the claim C8 instance. -/
def seasonsW : List SelectOption := [⟨"number:2", "2025-26 Season", false⟩]

/-- Concrete discovery environment for the claim C8 instance. -/
def envW : DiscoveryEnv := ⟨seasonsW, fun _ => [], fun _ _ => []⟩

/-- Concrete instance of claim C8's statement: the label `"zzz"` resolves
to nothing and yields empty divisions/teams, while `"2025-26 season"` has
an exact match that is preferred. -/
theorem C8_witness :
    getScheduleOptions envW (some "zzz") none =
      { seasons := seasonsW, divisions := [], teams := [] } ∧
    ∃ r, findOptionByLabel [⟨"number:1", "2025-26", false⟩,
        ⟨"number:2", "x 2025-26 x", false⟩] "2025-26" = some r ∧
      jsLower r.label = jsTrim (jsLower "2025-26") :=
  ⟨C8_unresolved_label_and_exact_preference.1 envW "zzz" none (by decide),
   C8_unresolved_label_and_exact_preference.2 _ "2025-26"
     ⟨⟨"number:1", "2025-26", false⟩, by decide, by decide⟩⟩

/-! ## Splitting lemmas for the summary delimiters -/

theorem splitFirst_cons_eq (sep : List Char) (x : Char) (xs : List Char) :
    splitFirst sep (x :: xs) =
      if sep.isPrefixOf (x :: xs) then some ([], (x :: xs).drop sep.length)
      else
        match splitFirst sep xs with
        | some (pre, post) => some (x :: pre, post)
        | none => none := rfl

/-- A successful `splitFirst` decomposes the input around the separator. -/
theorem splitFirst_some_structure {sep l pre post : List Char}
    (h : splitFirst sep l = some (pre, post)) : l = pre ++ sep ++ post := by
  induction l generalizing pre with
  | nil =>
    unfold splitFirst at h
    by_cases hs : sep.isEmpty
    · rw [if_pos hs] at h
      cases h
      rw [List.isEmpty_iff] at hs
      simp [hs]
    · rw [if_neg hs] at h
      cases h
  | cons c rest ih =>
    rw [splitFirst_cons_eq] at h
    by_cases hp : sep.isPrefixOf (c :: rest)
    · rw [if_pos hp] at h
      obtain ⟨t, ht⟩ := List.isPrefixOf_iff_prefix.mp hp
      cases h
      rw [← ht, List.drop_left]
      simp
    · rw [if_neg hp] at h
      cases hrec : splitFirst sep rest with
      | none => rw [hrec] at h; cases h
      | some pq =>
        rw [hrec] at h
        cases pq with
        | mk p q =>
          simp only [Option.some.injEq, Prod.mk.injEq] at h
          obtain ⟨h1, h2⟩ := h
          subst h1; subst h2
          simp [ih hrec]

/-- If some character of the separator does not occur in the input, the
separator does not occur either. -/
theorem splitFirst_none_of_marker {sep l : List Char} {c : Char}
    (hc : c ∈ sep) (hl : c ∉ l) : splitFirst sep l = none := by
  cases h : splitFirst sep l with
  | none => rfl
  | some pq =>
    cases pq with
    | mk pre post =>
      have := splitFirst_some_structure h
      subst this
      exact absurd (by simp [hc] : c ∈ pre ++ sep ++ post) hl

theorem splitFirst_self_append {sep B : List Char} (h : sep ≠ []) :
    splitFirst sep (sep ++ B) = some ([], B) := by
  cases sep with
  | nil => exact absurd rfl h
  | cons s ss =>
    rw [List.cons_append, splitFirst_cons_eq,
      if_pos (List.isPrefixOf_iff_prefix.mpr ⟨B, by simp⟩)]
    rw [← List.cons_append, List.drop_left]

/-- When the separator contains a character `c` occurring nowhere else in
the separator and not in `A`, the explicit occurrence after `A` is the
leftmost one. -/
theorem splitFirst_marker {s1 s2 A B : List Char} {c : Char}
    (hs1 : c ∉ s1) (hA : c ∉ A) :
    splitFirst (s1 ++ c :: s2) (A ++ (s1 ++ c :: s2) ++ B) = some (A, B) := by
  induction A with
  | nil =>
    rw [List.nil_append]
    exact splitFirst_self_append (by simp)
  | cons a rest ih =>
    have hca : c ≠ a := fun he => hA (he ▸ List.mem_cons_self a rest)
    have hcr : c ∉ rest := fun hm => hA (List.mem_cons_of_mem a hm)
    rw [List.cons_append, List.cons_append, splitFirst_cons_eq]
    rw [if_neg ?hnp]
    case hnp =>
      intro hp
      have hpre := List.isPrefixOf_iff_prefix.mp hp
      have hlen : s1.length < (s1 ++ c :: s2).length := by simp
      have hget := hpre.getElem hlen
      have hleft : (s1 ++ c :: s2)[s1.length] = c := by
        rw [List.getElem_append_right (Nat.le_refl _)]
        simp
      rw [hleft] at hget
      have hlen2 : s1.length < (a :: (rest ++ (s1 ++ c :: s2) ++ B)).length :=
        Nat.lt_of_lt_of_le hlen hpre.length_le
      have hgets : (a :: (rest ++ (s1 ++ c :: s2) ++ B))[s1.length]? = some c := by
        rw [List.getElem?_eq_getElem hlen2]
        exact congrArg some hget.symm
      cases hk : s1.length with
      | zero =>
        rw [hk] at hgets
        simp only [List.getElem?_cons_zero, Option.some.injEq] at hgets
        exact hca hgets.symm
      | succ k =>
        rw [hk, List.getElem?_cons_succ, List.append_assoc] at hgets
        by_cases hkr : k < rest.length
        · rw [List.getElem?_append_left hkr] at hgets
          exact hcr (List.getElem?_mem hgets)
        · have hkr2 : rest.length ≤ k := Nat.le_of_not_lt hkr
          rw [List.getElem?_append_right hkr2, List.append_assoc] at hgets
          have hj : k - rest.length < s1.length := by omega
          rw [List.getElem?_append_left hj] at hgets
          exact hs1 (List.getElem?_mem hgets)
    rw [ih hcr]

/-- Fuel irrelevance for the splitting loop (any fuel at least the input
length computes the same list). -/
theorem jsSplitAux_congr {sep : List Char} (hsep : sep ≠ []) :
    ∀ (f1 : Nat) (l : List Char) (f2 : Nat), l.length ≤ f1 → l.length ≤ f2 →
      jsSplitAux sep f1 l = jsSplitAux sep f2 l := by
  have hnil : splitFirst sep [] = none := by
    unfold splitFirst
    rw [if_neg (by simpa [List.isEmpty_iff] using hsep)]
  intro f1
  induction f1 with
  | zero =>
    intro l f2 h1 h2
    have hl : l = [] := List.length_eq_zero.mp (Nat.le_zero.mp h1)
    subst hl
    cases f2 with
    | zero => rfl
    | succ g => simp [jsSplitAux, hnil]
  | succ f ih =>
    intro l f2 h1 h2
    cases hs : splitFirst sep l with
    | none =>
      cases f2 with
      | zero =>
        have hl : l = [] := List.length_eq_zero.mp (Nat.le_zero.mp h2)
        subst hl
        simp [jsSplitAux, hnil]
      | succ g => simp [jsSplitAux, hs]
    | some pq =>
      cases pq with
      | mk pre post =>
        have hlt : post.length < l.length :=
          splitFirst_post_length (by simpa [List.isEmpty_iff] using hsep) hs
        have hne : l ≠ [] := by
          intro he; subst he; rw [hnil] at hs; cases hs
        have hlen1 : 1 ≤ l.length := by
          cases l with
          | nil => exact absurd rfl hne
          | cons _ _ => simp
        cases f2 with
        | zero => omega
        | succ g =>
          simp only [jsSplitAux, hs]
          rw [ih post g (by omega) (by omega)]

theorem jsSplitL_eq_cons {sep l pre post : List Char} (hsep : sep ≠ [])
    (h : splitFirst sep l = some (pre, post)) :
    jsSplitL sep l = pre :: jsSplitL sep post := by
  have hlt : post.length < l.length :=
    splitFirst_post_length (by simpa [List.isEmpty_iff] using hsep) h
  have hlen1 : 1 ≤ l.length := by omega
  rw [jsSplitL, jsSplitL, if_neg (by simpa [List.isEmpty_iff] using hsep),
    if_neg (by simpa [List.isEmpty_iff] using hsep)]
  cases hn : l.length with
  | zero => omega
  | succ n =>
    simp only [jsSplitAux, h]
    rw [jsSplitAux_congr hsep n post post.length (by omega) (Nat.le_refl _)]

theorem jsSplitL_eq_single {sep l : List Char} (h : splitFirst sep l = none) :
    jsSplitL sep l = [l] := by
  by_cases hs : sep.isEmpty
  · rw [jsSplitL, if_pos hs]
  · rw [jsSplitL, if_neg hs]
    cases hn : l.length with
    | zero => rfl
    | succ n => simp [jsSplitAux, h]

/-- Claim C5: a feed-event summary of the form `A @ B` yields a `Game`
with away `A`, home `B` and `gameType = "away"`, and `A vs B` yields away
`A`, home `B` and `gameType = "home"`.  "Of the form" is captured by the
hypotheses: the delimiter-marking characters do not occur inside the team
names and the names carry no surrounding whitespace. -/
theorem C5_summary_delimiter_mapping (A B loc : String) (dt : PacificDateTime)
    (htA : jsTrimL A.data = A.data) (htB : jsTrimL B.data = B.data)
    (hA : '@' ∉ A.data) (hB : '@' ∉ B.data)
    (hvA : 'v' ∉ A.data) (hvB : 'v' ∉ B.data) :
    (∃ g, parseICalEvent ⟨"VEVENT", A ++ " @ " ++ B, loc, some dt⟩ = .ok g ∧
      g.away = A ∧ g.home = B ∧ g.gameType = some "away") ∧
    (∃ g, parseICalEvent ⟨"VEVENT", A ++ " vs " ++ B, loc, some dt⟩ = .ok g ∧
      g.away = A ∧ g.home = B ∧ g.gameType = some "home") := by
  constructor
  · have hdata : (A ++ " @ " ++ B).data = A.data ++ ([' '] ++ '@' :: [' ']) ++ B.data := by
      simp [String.data_append]
    have hsf : splitFirst ([' '] ++ '@' :: [' '])
        (A.data ++ ([' '] ++ '@' :: [' ']) ++ B.data) = some (A.data, B.data) :=
      splitFirst_marker (by decide) hA
    have hsep : ((" @ " : String)).data = [' '] ++ '@' :: [' '] := by decide
    have hinc : jsIncludesL (" @ ").data (A ++ " @ " ++ B).data = true := by
      rw [jsIncludesL, hdata, hsep, hsf]; rfl
    have hnone : splitFirst ([' '] ++ '@' :: [' ']) B.data = none :=
      splitFirst_none_of_marker (by decide) hB
    have hsplitL : jsSplitL (" @ ").data (A ++ " @ " ++ B).data = [A.data, B.data] := by
      rw [hdata, hsep, jsSplitL_eq_cons (by decide) hsf, jsSplitL_eq_single hnone]
    have hsummary : splitSummary (A ++ " @ " ++ B).data = .ok (A.data, B.data, "away") := by
      rw [splitSummary, if_pos hinc, hsplitL]
      show Except.ok (jsTrimL A.data, jsTrimL B.data, "away") = _
      rw [htA, htB]
    simp only [parseICalEvent, hsummary, formatDate, formatTime, Except.bind, bind]
    exact ⟨_, rfl, rfl, rfl, rfl⟩
  · have hdata : (A ++ " vs " ++ B).data =
        A.data ++ ([' '] ++ 'v' :: ['s', ' ']) ++ B.data := by
      simp [String.data_append]
    have hsf : splitFirst ([' '] ++ 'v' :: ['s', ' '])
        (A.data ++ ([' '] ++ 'v' :: ['s', ' ']) ++ B.data) = some (A.data, B.data) :=
      splitFirst_marker (by decide) hvA
    have hsep : ((" vs " : String)).data = [' '] ++ 'v' :: ['s', ' '] := by decide
    have hnoAt : jsIncludesL (" @ ").data (A ++ " vs " ++ B).data = false := by
      have : splitFirst (" @ ").data (A ++ " vs " ++ B).data = none := by
        refine splitFirst_none_of_marker (c := '@') (by decide) ?_
        rw [hdata]
        simp only [List.mem_append, List.mem_cons, List.mem_singleton]
        push_neg
        refine ⟨⟨fun hm => absurd hm hA, by decide⟩, fun hm => absurd hm hB⟩
      rw [jsIncludesL, this]; rfl
    have hinc : jsIncludesL (" vs ").data (A ++ " vs " ++ B).data = true := by
      rw [jsIncludesL, hdata, hsep, hsf]; rfl
    have hnone : splitFirst ([' '] ++ 'v' :: ['s', ' ']) B.data = none :=
      splitFirst_none_of_marker (by decide) hvB
    have hsplitL : jsSplitL (" vs ").data (A ++ " vs " ++ B).data = [A.data, B.data] := by
      rw [hdata, hsep, jsSplitL_eq_cons (by decide) hsf, jsSplitL_eq_single hnone]
    have hsummary : splitSummary (A ++ " vs " ++ B).data = .ok (A.data, B.data, "home") := by
      rw [splitSummary, if_neg (by simp only [hnoAt]; exact Bool.false_ne_true),
        if_pos hinc, hsplitL]
      show Except.ok (jsTrimL A.data, jsTrimL B.data, "home") = _
      rw [htA, htB]
    simp only [parseICalEvent, hsummary, formatDate, formatTime, Except.bind, bind]
    exact ⟨_, rfl, rfl, rfl, rfl⟩

/-- Concrete instance of claim C5's statement. -/
theorem C5_witness :
    (∃ g, parseICalEvent ⟨"VEVENT", "Team A" ++ " @ " ++ "Team B",
        "Great Park Ice", some ⟨2025, 9, 13, 19, 0⟩⟩ = .ok g ∧
      g.away = "Team A" ∧ g.home = "Team B" ∧ g.gameType = some "away") ∧
    (∃ g, parseICalEvent ⟨"VEVENT", "Team A" ++ " vs " ++ "Team B",
        "Great Park Ice", some ⟨2025, 9, 13, 19, 0⟩⟩ = .ok g ∧
      g.away = "Team A" ∧ g.home = "Team B" ∧ g.gameType = some "home") :=
  C5_summary_delimiter_mapping "Team A" "Team B" "Great Park Ice" ⟨2025, 9, 13, 19, 0⟩
    (by decide) (by decide) (by decide) (by decide) (by decide) (by decide)

/-- Claim C9: a feed-event summary containing neither `" @ "` nor `" vs "`
still yields a `Game` (the event is not dropped): both `home` and `away`
equal the trimmed full summary and `gameType` is `"neutral"`. -/
theorem C9_neutral_fallback (s loc : String) (dt : PacificDateTime)
    (h1 : jsIncludesL (" @ ").data s.data = false)
    (h2 : jsIncludesL (" vs ").data s.data = false) :
    ∃ g, parseICalEvent ⟨"VEVENT", s, loc, some dt⟩ = .ok g ∧
      g.home = jsTrim s ∧ g.away = jsTrim s ∧ g.home = g.away ∧
      g.gameType = some "neutral" := by
  have hsummary : splitSummary s.data = .ok (jsTrimL s.data, jsTrimL s.data, "neutral") := by
    rw [splitSummary, if_neg (by simp [h1]), if_neg (by simp [h2])]
  simp only [parseICalEvent, hsummary, formatDate, formatTime, Except.bind, bind]
  exact ⟨_, rfl, rfl, rfl, rfl, rfl⟩

/-- Concrete instance of claim C9's statement. -/
theorem C9_witness :
    ∃ g, parseICalEvent ⟨"VEVENT", "Practice Session", "The Rinks",
        some ⟨2025, 9, 1, 12, 30⟩⟩ = .ok g ∧
      g.home = jsTrim "Practice Session" ∧ g.away = jsTrim "Practice Session" ∧
      g.home = g.away ∧ g.gameType = some "neutral" :=
  C9_neutral_fallback "Practice Session" "The Rinks" ⟨2025, 9, 1, 12, 30⟩
    (by decide) (by decide)

/-! ## Duplicate-header-row lemmas -/

theorem isJsWs_eq_true {c : Char} (h : isJsWs c = true) :
    c.toNat = 32 ∨ c.toNat = 9 ∨ c.toNat = 10 ∨ c.toNat = 11 ∨
    c.toNat = 12 ∨ c.toNat = 13 ∨ c.toNat = 160 := by
  simp only [isJsWs, Bool.or_eq_true, beq_iff_eq] at h
  tauto

theorem jsLowerCh_toNat {c d : Char} (h : jsLowerCh c = d) :
    c.toNat = d.toNat ∨ (65 ≤ c.toNat ∧ c.toNat ≤ 90 ∧ d.toNat = c.toNat + 32) := by
  simp only [jsLowerCh, Char.toLower] at h
  by_cases hc : c.toNat ≥ 65 ∧ c.toNat ≤ 90
  · right
    refine ⟨hc.1, hc.2, ?_⟩
    rw [if_pos hc] at h
    rw [← h]
    exact toNat_ofNat_upper_shift hc.1 hc.2
  · left
    rw [if_neg hc] at h
    rw [h]

theorem map_eq_four {f : Char → Char} {l : List Char} {d1 d2 d3 d4 : Char}
    (h : l.map f = [d1, d2, d3, d4]) :
    ∃ c1 c2 c3 c4, l = [c1, c2, c3, c4] ∧
      f c1 = d1 ∧ f c2 = d2 ∧ f c3 = d3 ∧ f c4 = d4 := by
  cases l with
  | nil => cases h
  | cons c1 t1 =>
  cases t1 with
  | nil => simp at h
  | cons c2 t2 =>
  cases t2 with
  | nil => simp at h
  | cons c3 t3 =>
  cases t3 with
  | nil => simp at h
  | cons c4 t4 =>
  cases t4 with
  | cons c5 t5 => simp at h
  | nil =>
    simp only [List.map_cons, List.map_nil, List.cons.injEq, and_true] at h
    exact ⟨c1, c2, c3, c4, rfl, h.1, h.2.1, h.2.2.1, h.2.2.2⟩

theorem dupCodeMatchAt_cons_nondigit {c : Char} {rest : List Char}
    (hc : isDigitCh c = false) : dupCodeMatchAt (c :: rest) = none := by
  simp [dupCodeMatchAt, List.takeWhile_cons, hc]

theorem dupCodeGo_cons (stemRev : List Char) (c : Char) (rest : List Char) :
    dupCodeGo stemRev (c :: rest) =
      match dupCodeMatchAt (c :: rest) with
      | some kept => some (stemRev.reverse ++ kept)
      | none => dupCodeGo (c :: stemRev) rest := rfl

theorem dupCodeGo_nodigit {l : List Char}
    (h : ∀ c ∈ l, isDigitCh c = false) :
    ∀ stemRev, dupCodeGo stemRev l = none := by
  induction l with
  | nil => intro s; rfl
  | cons c rest ih =>
    intro s
    rw [dupCodeGo_cons, dupCodeMatchAt_cons_nondigit (h c (by simp))]
    exact ih (fun x hx => h x (List.mem_cons_of_mem _ hx)) (c :: s)

theorem stripDupCode_eq_self {l : List Char}
    (h : ∀ c ∈ l, isDigitCh c = false) : stripDupCode l = l := by
  rw [stripDupCode, dupCodeGo_nodigit h []]

/-! ## Claims C7 -/

/-- Claim C7: a body row whose date cell is the literal header token
`Date` or whose home cell is `Home` (case-insensitively) is skipped by the
row parser, so the duplicated header row contributes zero `Game`
entries. -/
theorem C7_duplicate_header_row_dropped (cols : ColIdx) (division season : String)
    (row : List String)
    (h : jsLower (cellAt row cols.dateIdx) = "date" ∨
         jsLower (cellAt row cols.homeIdx) = "home") :
    parseScheduleRow cols division season row = none := by
  rcases h with hdate | hhome
  · by_cases hg : ((cellAt row cols.dateIdx).isEmpty ||
        (cleanTeamName (cellAt row cols.homeIdx)).isEmpty ||
        (cleanTeamName (cellAt row cols.awayIdx)).isEmpty) = true
    · simp only [parseScheduleRow]
      rw [if_pos hg]
    · simp only [parseScheduleRow]
      rw [if_neg hg, if_pos]
      rw [Bool.or_eq_true]
      right
      rw [beq_iff_eq]
      exact hdate
  · -- from `jsLower cell = "home"` obtain the four letters of the cell
    have hmap : (cellAt row cols.homeIdx).data.map jsLowerCh = ['h', 'o', 'm', 'e'] :=
      congrArg String.data hhome
    obtain ⟨c1, c2, c3, c4, hcell, h1, h2, h3, h4⟩ := map_eq_four hmap
    have p1 := jsLowerCh_toNat h1
    have p2 := jsLowerCh_toNat h2
    have p3 := jsLowerCh_toNat h3
    have p4 := jsLowerCh_toNat h4
    have eh : ('h' : Char).toNat = 104 := by decide
    have eo : ('o' : Char).toNat = 111 := by decide
    have em : ('m' : Char).toNat = 109 := by decide
    have ee : ('e' : Char).toNat = 101 := by decide
    rw [eh] at p1
    rw [eo] at p2
    rw [em] at p3
    rw [ee] at p4
    have q1 : c1.toNat = 104 ∨ c1.toNat = 72 := by omega
    have q2 : c2.toNat = 111 ∨ c2.toNat = 79 := by omega
    have q3 : c3.toNat = 109 ∨ c3.toNat = 77 := by omega
    have q4 : c4.toNat = 101 ∨ c4.toNat = 69 := by omega
    have hwf : ∀ c : Char, (c.toNat = 104 ∨ c.toNat = 72) ∨ (c.toNat = 111 ∨ c.toNat = 79) ∨
        (c.toNat = 109 ∨ c.toNat = 77) ∨ (c.toNat = 101 ∨ c.toNat = 69) →
        isJsWs c = false ∧ isDigitCh c = false ∧ c.toNat ≠ 118 := by
      intro c hc
      refine ⟨?_, ?_, by omega⟩
      · cases hws : isJsWs c
        · rfl
        · have := isJsWs_eq_true hws
          omega
      · cases hdg : isDigitCh c
        · rfl
        · have : 48 ≤ c.toNat ∧ c.toNat ≤ 57 := by simpa [isDigitCh] using hdg
          omega
    have w1 := hwf c1 (Or.inl q1)
    have w2 := hwf c2 (Or.inr (Or.inl q2))
    have w3 := hwf c3 (Or.inr (Or.inr (Or.inl q3)))
    have w4 := hwf c4 (Or.inr (Or.inr (Or.inr q4)))
    -- the cell is trim-fixed, `" vs "`-free and digit-free
    have htrim : jsTrimL [c1, c2, c3, c4] = [c1, c2, c3, c4] := by
      have hleft : trimLeftL [c1, c2, c3, c4] = [c1, c2, c3, c4] :=
        trimLeftL_eq_self (by intro y hy; cases hy; exact w1.1)
      have hright : trimRightL [c1, c2, c3, c4] = [c1, c2, c3, c4] :=
        trimRightL_eq_self (by intro y hy; cases hy; exact w4.1)
      rw [jsTrimL_def, hleft, hright]
    have hvnotin : 'v' ∉ [c1, c2, c3, c4] := by
      intro hm
      have hv : ('v' : Char).toNat = 118 := by decide
      simp only [List.mem_cons, List.not_mem_nil, or_false] at hm
      rcases hm with hm | hm | hm | hm
      all_goals
        have ht2 := congrArg Char.toNat hm
        rw [hv] at ht2
        omega
    have hvs : jsIncludesL (" vs ").data [c1, c2, c3, c4] = false := by
      rw [jsIncludesL, splitFirst_none_of_marker (c := 'v') (by decide) hvnotin]
      rfl
    have hnodigit : ∀ c ∈ [c1, c2, c3, c4], isDigitCh c = false := by
      intro c hc
      simp only [List.mem_cons, List.not_mem_nil, or_false] at hc
      rcases hc with hc | hc | hc | hc <;> subst hc
      · exact w1.2.1
      · exact w2.2.1
      · exact w3.2.1
      · exact w4.2.1
    have hclean : cleanTeamName (cellAt row cols.homeIdx) = cellAt row cols.homeIdx := by
      rw [cleanTeamName, hcell, htrim, hvs]
      simp only [Bool.false_eq_true, if_false]
      rw [stripDupCode_eq_self hnodigit, htrim, ← hcell]
    by_cases hg : ((cellAt row cols.dateIdx).isEmpty ||
        (cleanTeamName (cellAt row cols.homeIdx)).isEmpty ||
        (cleanTeamName (cellAt row cols.awayIdx)).isEmpty) = true
    · simp only [parseScheduleRow]
      rw [if_pos hg]
    · simp only [parseScheduleRow]
      rw [if_neg hg, if_pos]
      rw [Bool.or_eq_true]
      left
      rw [beq_iff_eq, hclean]
      exact hhome

/-- Concrete instance of claim C7's statement: a duplicate header row
yields no game. -/
theorem C7_witness :
    parseScheduleRow (findColumns ["date", "time", "home", "away"]) "12u AA" "2025-26"
      ["Date", "7:15AM", "Home", "Away"] = none :=
  C7_duplicate_header_row_dropped _ "12u AA" "2025-26" _ (Or.inl (by decide))

/-! ## Claim C6 -/

theorem foldl_pushRow_filterMap (cols : ColIdx) (division season : String)
    (l : List (List String)) (acc : List Game) :
    l.foldl (pushRow cols division season) acc =
      acc ++ l.filterMap (parseScheduleRow cols division season) := by
  induction l generalizing acc with
  | nil => simp
  | cons x rest ih =>
    simp only [List.foldl_cons, List.filterMap_cons, pushRow]
    cases parseScheduleRow cols division season x with
    | some y => rw [ih]; simp
    | none => rw [ih]

theorem foldl_pushEvent_filterMap (events : List ICalEvent) (acc : List Game) :
    events.foldl pushEvent acc =
    acc ++ (events.filter (fun e => e.type == "VEVENT")).filterMap
      (fun e => (parseICalEvent e).toOption) := by
  induction events generalizing acc with
  | nil => simp
  | cons e rest ih =>
    simp only [List.foldl_cons, List.filter_cons, pushEvent]
    by_cases he : e.type = "VEVENT"
    · rw [if_neg (by simp [he]), if_pos (by simp [he])]
      simp only [List.filterMap_cons]
      cases hp : parseICalEvent e with
      | ok g => rw [ih]; simp [Except.toOption, hp]
      | error msg => rw [ih]; simp [Except.toOption, hp]
    · rw [if_pos (by simp [he]), if_neg (by simp [he])]
      exact ih acc

/-- Claim C6: a row or event whose field parsing throws is dropped without
failing the whole extraction — whenever the table's header passes the
structural check, `parseScheduleTable` succeeds and returns exactly the
games of the rows whose independent parses succeed, and the feed parser
returns exactly the (date-sorted) games of the `VEVENT`s whose parses
succeed. -/
theorem C6_row_failures_are_dropped :
    (∀ (tableData : List (List String)) (division season : String),
      2 ≤ tableData.length →
      (findColumns ((tableData.headD []).map jsLower)).dateIdx.isNone = false →
      (findColumns ((tableData.headD []).map jsLower)).homeIdx.isNone = false →
      (findColumns ((tableData.headD []).map jsLower)).awayIdx.isNone = false →
      parseScheduleTable tableData division season =
        .ok ((tableData.drop 1).filterMap
          (parseScheduleRow (findColumns ((tableData.headD []).map jsLower))
            division season))) ∧
    (∀ events : List ICalEvent,
      parseICalFeed events =
        sortGames ((events.filter (fun e => e.type == "VEVENT")).filterMap
          (fun e => (parseICalEvent e).toOption))) := by
  constructor
  · intro tableData division season hlen hd hh ha
    rw [parseScheduleTable, if_neg (by omega)]
    rw [if_neg ?hcols]
    case hcols =>
      intro hC
      rw [hd, hh, ha] at hC
      exact Bool.false_ne_true hC
    refine congrArg Except.ok ?_
    have hfold := foldl_pushRow_filterMap
      (findColumns ((tableData.headD []).map jsLower)) division season
      (tableData.drop 1) []
    simpa using hfold
  · intro events
    rw [parseICalFeed]
    refine congrArg sortGames ?_
    simpa using foldl_pushEvent_filterMap events []

/-- A concrete schedule table for the claim C6 instance. -/
def tableW : List (List String) :=
  [["Date", "Time", "Home", "Away", "Venue", "Status"],
   ["Sat Sep 13", "7:15AM PDT", "LA Lions 12u AALions12AA", "OC Hockey 12u AAOC12AA",
    "Great Park Ice - Rink 1", "Scheduled"],
   ["Sun Sep 14", "19:15", "A Team", "B Team", "Venue X", ""]]

/-- Concrete instance of claim C6's statement: the second data row's time
parse throws, the row is dropped, and the extraction still succeeds. -/
theorem C6_witness :
    parseScheduleTable tableW "12u AA" "2025-26" =
      .ok ((tableW.drop 1).filterMap
        (parseScheduleRow (findColumns ((tableW.headD []).map jsLower))
          "12u AA" "2025-26")) :=
  C6_row_failures_are_dropped.1 tableW "12u AA" "2025-26"
    (by decide) (by decide) (by decide) (by decide)

/-! ## AM/PM conversion lemmas (claim C3) -/

theorem beq_char_false {c d : Char} (h : c.toNat ≠ d.toNat) : (c == d) = false := by
  cases hb : c == d
  · rfl
  · exact absurd (congrArg Char.toNat (eq_of_beq hb)) h

theorem isDigitCh_bounds {c : Char} (h : isDigitCh c = true) :
    48 ≤ c.toNat ∧ c.toNat ≤ 57 := by
  simpa [isDigitCh] using h

theorem isAsciiLetter_bounds {c : Char} (h : isAsciiLetter c = true) :
    (65 ≤ c.toNat ∧ c.toNat ≤ 90) ∨ (97 ≤ c.toNat ∧ c.toNat ≤ 122) := by
  simpa [isAsciiLetter] using h

theorem digit_not_ws {c : Char} (h : isDigitCh c = true) : isJsWs c = false := by
  have hb := isDigitCh_bounds h
  cases hw : isJsWs c
  · rfl
  · have h2 := isJsWs_eq_true hw
    omega

theorem letter_not_ws {c : Char} (h : isAsciiLetter c = true) : isJsWs c = false := by
  have hb := isAsciiLetter_bounds h
  cases hw : isJsWs c
  · rfl
  · have h2 := isJsWs_eq_true hw
    rcases hb with hb | hb <;> omega

theorem digit_not_letter {c : Char} (h : isDigitCh c = true) : isAsciiLetter c = false := by
  have hb := isDigitCh_bounds h
  cases hl : isAsciiLetter c
  · rfl
  · have h2 := isAsciiLetter_bounds hl
    rcases h2 with h2 | h2 <;> omega

theorem digit_ne_space {c : Char} (h : isDigitCh c = true) : (c == ' ') = false := by
  have hb := isDigitCh_bounds h
  refine beq_char_false ?_
  rw [show (' ' : Char).toNat = 32 from by decide]
  omega

theorem digit_ne_colon {c : Char} (h : isDigitCh c = true) : (c == ':') = false := by
  have hb := isDigitCh_bounds h
  refine beq_char_false ?_
  rw [show (':' : Char).toNat = 58 from by decide]
  omega

theorem colon_not_mem_digits {l : List Char}
    (h : ∀ c ∈ l, isDigitCh c = true) : ':' ∉ l := by
  intro hm
  have := h ':' hm
  exact absurd this (by decide)

theorem jsUpperCh_digit {c : Char} (h : isDigitCh c = true) : jsUpperCh c = c := by
  have hb := isDigitCh_bounds h
  simp only [jsUpperCh, Char.toUpper]
  rw [if_neg]
  omega

theorem digit_upper_ne {c : Char} (h : isDigitCh c = true) :
    (jsUpperCh c == 'A') = false ∧ (jsUpperCh c == 'P') = false := by
  rw [jsUpperCh_digit h]
  have hb := isDigitCh_bounds h
  constructor
  · refine beq_char_false ?_
    rw [show ('A' : Char).toNat = 65 from by decide]
    omega
  · refine beq_char_false ?_
    rw [show ('P' : Char).toNat = 80 from by decide]
    omega

theorem colon_upper_ne :
    (jsUpperCh ':' == 'A') = false ∧ (jsUpperCh ':' == 'P') = false := by decide

theorem findAmPm_cons₂ (c1 c2 : Char) (r : List Char) :
    findAmPm (c1 :: c2 :: r) =
      if jsUpperCh c1 == 'A' && jsUpperCh c2 == 'M' then some false
      else if jsUpperCh c1 == 'P' && jsUpperCh c2 == 'M' then some true
      else findAmPm (c2 :: r) := rfl

theorem findAmPm_append {xs ys : List Char}
    (h : ∀ c ∈ xs, (jsUpperCh c == 'A') = false ∧ (jsUpperCh c == 'P') = false) :
    findAmPm (xs ++ ys) = findAmPm ys := by
  induction xs with
  | nil => rfl
  | cons c xs2 ih =>
    have hc := h c (by simp)
    have hrest : ∀ d ∈ xs2, (jsUpperCh d == 'A') = false ∧ (jsUpperCh d == 'P') = false :=
      fun d hd => h d (List.mem_cons_of_mem _ hd)
    rw [List.cons_append]
    cases hxs : xs2 ++ ys with
    | nil =>
      have h1 := List.append_eq_nil.mp hxs
      rw [h1.2]
      rfl
    | cons y t =>
      rw [findAmPm_cons₂, if_neg (by simp [hc.1]), if_neg (by simp [hc.2])]
      have hgoal := ih hrest
      rw [hxs] at hgoal
      exact hgoal

theorem removeAmPm_cons₂ (c1 c2 : Char) (r : List Char) :
    removeAmPm (c1 :: c2 :: r) =
      if (jsUpperCh c1 == 'A' || jsUpperCh c1 == 'P') && jsUpperCh c2 == 'M' then r
      else c1 :: removeAmPm (c2 :: r) := rfl

theorem removeAmPm_append {xs ys : List Char}
    (h : ∀ c ∈ xs, (jsUpperCh c == 'A') = false ∧ (jsUpperCh c == 'P') = false) :
    removeAmPm (xs ++ ys) = xs ++ removeAmPm ys := by
  induction xs with
  | nil => rfl
  | cons c xs2 ih =>
    have hc := h c (by simp)
    have hrest : ∀ d ∈ xs2, (jsUpperCh d == 'A') = false ∧ (jsUpperCh d == 'P') = false :=
      fun d hd => h d (List.mem_cons_of_mem _ hd)
    rw [List.cons_append]
    cases hxs : xs2 ++ ys with
    | nil =>
      have h1 := List.append_eq_nil.mp hxs
      rw [h1.1, h1.2]
      rfl
    | cons y t =>
      rw [removeAmPm_cons₂, if_neg (by simp [hc.1, hc.2]), List.cons_append]
      have hgoal := ih hrest
      rw [hxs] at hgoal
      exact congrArg (List.cons c) hgoal

theorem splitCh_cons (sep c : Char) (rest : List Char) :
    splitCh sep (c :: rest) =
      if c == sep then [] :: splitCh sep rest
      else
        match splitCh sep rest with
        | g :: gs => (c :: g) :: gs
        | [] => [[c]] := rfl

theorem splitCh_not_mem {sep : Char} {l : List Char} (h : sep ∉ l) :
    splitCh sep l = [l] := by
  induction l with
  | nil => rfl
  | cons c rest ih =>
    have hne : (c == sep) = false := by
      cases hb : c == sep
      · rfl
      · exact absurd (eq_of_beq hb ▸ List.mem_cons_self c rest) h
    rw [splitCh_cons, if_neg (by simp [hne]),
      ih (fun hm => h (List.mem_cons_of_mem _ hm))]

theorem splitCh_append {sep : Char} {A B : List Char} (h : sep ∉ A) :
    splitCh sep (A ++ sep :: B) = A :: splitCh sep B := by
  induction A with
  | nil =>
    rw [List.nil_append, splitCh_cons, if_pos (by simp)]
  | cons a A2 ih =>
    have hne : (a == sep) = false := by
      cases hb : a == sep
      · rfl
      · exact absurd (by rw [← eq_of_beq hb]; exact List.mem_cons_self a A2) h
    rw [List.cons_append, splitCh_cons, if_neg (by simp [hne]),
      ih (fun hm => h (List.mem_cons_of_mem _ hm))]

theorem toString_nat12 (h : Nat) (h1 : 1 ≤ h) (h2 : h ≤ 12) :
    (toString h).data ≠ [] ∧ ∀ c ∈ (toString h).data, isDigitCh c = true := by
  interval_cases h <;> exact ⟨by decide, by decide⟩

theorem jsParseInt_toString12 (h : Nat) (h1 : 1 ≤ h) (h2 : h ≤ 12) :
    jsParseInt ((toString h).data) = some (Int.ofNat h) := by
  interval_cases h <;> decide

/-- The 12h→24h hour conversion the claim describes. -/
def to24 (h : Nat) (pm : Bool) : Nat :=
  if pm then (if h = 12 then 12 else h + 12) else (if h = 12 then 0 else h)

theorem adjustHour_to24 (h : Nat) (pm : Bool) (h1 : 1 ≤ h) (h2 : h ≤ 12) :
    adjustHour pm (some (Int.ofNat h)) = some (Int.ofNat (to24 h pm)) := by
  interval_cases h <;> cases pm <;> decide

theorem to24_le (h : Nat) (pm : Bool) (h1 : 1 ≤ h) (h2 : h ≤ 12) :
    to24 h pm ≤ 23 := by
  rw [to24]
  split <;> split <;> omega

theorem padStart2_hourRepr (n : Nat) (hn : n ≤ 23) :
    padStart2 (hourRepr (some (Int.ofNat n))) = pad2Nat n := by
  interval_cases n <;> decide

/-- Shape of an accepted trailing timezone abbreviation: empty, or a space
followed by two or three ASCII letters. -/
def tzOkB (tz : String) : Bool :=
  match tz.data with
  | [] => true
  | c :: ls => c == ' ' && (ls.length == 2 || ls.length == 3) && ls.all isAsciiLetter

theorem stripTZ_eq (l : List Char) (a b c d : Char) (rest : List Char)
    (hrev : l.reverse = a :: b :: c :: d :: rest) :
    stripTZ l =
      if isAsciiLetter a && isAsciiLetter b && isAsciiLetter c && d == ' ' then rest.reverse
      else if isAsciiLetter a && isAsciiLetter b && c == ' ' then (d :: rest).reverse
      else l := by
  rw [stripTZ, hrev]

theorem stripSecs_eq (l : List Char) (a b c : Char) (rest : List Char)
    (hrev : l.reverse = a :: b :: c :: rest) :
    stripSecs l = if isDigitCh a && isDigitCh b && c == ':' then rest.reverse else l := by
  rw [stripSecs, hrev]

theorem parsePGHLTime_ampm_general (hstr : List Char) (m1 m2 ap : Char) (pm : Bool)
    (tzL : List Char)
    (hne : hstr ≠ []) (hdig : ∀ c ∈ hstr, isDigitCh c = true)
    (hm1 : isDigitCh m1 = true) (hm2 : isDigitCh m2 = true)
    (hapl : isAsciiLetter ap = true)
    (hfind2 : findAmPm (ap :: 'M' :: tzL) = some pm)
    (hrem2 : removeAmPm [ap, 'M'] = [])
    (htz : tzL = [] ∨ (∃ ls, tzL = ' ' :: ls ∧ (ls.length = 2 ∨ ls.length = 3) ∧
      ∀ c ∈ ls, isAsciiLetter c = true)) :
    parsePGHLTime ⟨hstr ++ ':' :: m1 :: m2 :: ap :: 'M' :: tzL⟩ =
      .ok ⟨padStart2 (hourRepr (adjustHour pm (jsParseInt hstr))) ++ ':' :: [m1, m2]⟩ := by
  obtain ⟨hd, tl, hhd⟩ : ∃ a t, hstr = a :: t := by
    cases hx : hstr
    · exact absurd hx hne
    · exact ⟨_, _, rfl⟩
  have hhdd : isDigitCh hd = true := hdig hd (by rw [hhd]; simp)
  set L := hstr ++ ':' :: m1 :: m2 :: ap :: 'M' :: tzL with hLdef
  have hLhead : L.head? = some hd := by
    rw [hLdef, hhd]
    simp
  -- step 1: trimming the input is a no-op
  have htrimL : jsTrimL L = L := by
    have h1 : trimLeftL L = L :=
      trimLeftL_eq_self (fun y hy => by
        rw [hLhead] at hy
        cases hy
        exact digit_not_ws hhdd)
    have h2 : trimRightL L = L := by
      refine trimRightL_eq_self (fun y hy => ?_)
      rcases htz with htz0 | ⟨ls, hls, hlen, hlet⟩
      · have hlastM : (( ':' :: m1 :: m2 :: ap :: 'M' :: [] : List Char)).getLast? = some 'M' := rfl
        rw [hLdef, htz0, List.getLast?_append, hlastM] at hy
        have hy2 : some 'M' = some y := hy
        cases hy2
        decide
      · rcases hlen with hlen | hlen
        · obtain ⟨t1, t2, hls2⟩ := List.length_eq_two.mp hlen
          have hlast : ((':' :: m1 :: m2 :: ap :: 'M' :: tzL : List Char)).getLast? = some t2 := by
            rw [hls, hls2]; rfl
          rw [hLdef, List.getLast?_append, hlast] at hy
          have hy2 : some t2 = some y := hy
          cases hy2
          exact letter_not_ws (hlet y (by rw [hls2]; simp))
        · obtain ⟨t1, t2, t3, hls2⟩ := List.length_eq_three.mp hlen
          have hlast : ((':' :: m1 :: m2 :: ap :: 'M' :: tzL : List Char)).getLast? = some t3 := by
            rw [hls, hls2]; rfl
          rw [hLdef, List.getLast?_append, hlast] at hy
          have hy2 : some t3 = some y := hy
          cases hy2
          exact letter_not_ws (hlet y (by rw [hls2]; simp))
    rw [jsTrimL_def, h1, h2]
  -- step 2: the timezone strip leaves exactly the marker-terminated core
  have hTZ : stripTZ L = hstr ++ ':' :: m1 :: m2 :: ap :: 'M' :: [] := by
    rcases htz with htz0 | ⟨ls, hls, hlen, hlet⟩
    · have hrev : L.reverse = 'M' :: ap :: m2 :: m1 :: ':' :: hstr.reverse := by
        rw [hLdef, htz0]
        simp
      rw [stripTZ_eq L 'M' ap m2 m1 (':' :: hstr.reverse) hrev]
      rw [if_neg (by simp [digit_not_letter hm2]), if_neg (by simp [digit_ne_space hm2])]
      rw [hLdef, htz0]
    · rcases hlen with hlen | hlen
      · obtain ⟨t1, t2, hls2⟩ := List.length_eq_two.mp hlen
        have ht1 := hlet t1 (by rw [hls2]; simp)
        have ht2 := hlet t2 (by rw [hls2]; simp)
        have hrev : L.reverse = t2 :: t1 :: ' ' :: 'M' :: ap :: m2 :: m1 :: ':' :: hstr.reverse := by
          rw [hLdef, hls, hls2]
          simp
        rw [stripTZ_eq L t2 t1 ' ' 'M' (ap :: m2 :: m1 :: ':' :: hstr.reverse) hrev]
        rw [if_neg (by simp), if_pos (by simp [ht1, ht2])]
        simp
      · obtain ⟨t1, t2, t3, hls2⟩ := List.length_eq_three.mp hlen
        have ht1 := hlet t1 (by rw [hls2]; simp)
        have ht2 := hlet t2 (by rw [hls2]; simp)
        have ht3 := hlet t3 (by rw [hls2]; simp)
        have hrev : L.reverse = t3 :: t2 :: t1 :: ' ' :: 'M' :: ap :: m2 :: m1 :: ':' :: hstr.reverse := by
          rw [hLdef, hls, hls2]
          simp
        rw [stripTZ_eq L t3 t2 t1 ' ' ('M' :: ap :: m2 :: m1 :: ':' :: hstr.reverse) hrev]
        rw [if_pos (by simp [ht1, ht2, ht3])]
        simp
  -- step 3: the seconds strip is a no-op on the core
  have hsecs : stripSecs (hstr ++ ':' :: m1 :: m2 :: ap :: 'M' :: []) =
      hstr ++ ':' :: m1 :: m2 :: ap :: 'M' :: [] := by
    have hrev : (hstr ++ ':' :: m1 :: m2 :: ap :: 'M' :: []).reverse =
        'M' :: ap :: m2 :: m1 :: ':' :: hstr.reverse := by simp
    rw [stripSecs_eq _ 'M' ap m2 (m1 :: ':' :: hstr.reverse) hrev]
    rw [if_neg (by simp [show isDigitCh 'M' = false from by decide])]
  -- step 4: the marker probe on the original input finds the marker
  have hxsfact : ∀ c ∈ hstr ++ [':', m1, m2],
      (jsUpperCh c == 'A') = false ∧ (jsUpperCh c == 'P') = false := by
    intro c hc
    rw [List.mem_append] at hc
    rcases hc with hc | hc
    · exact digit_upper_ne (hdig c hc)
    · simp only [List.mem_cons, List.not_mem_nil, or_false] at hc
      rcases hc with hc | hc | hc
      · rw [hc]; exact colon_upper_ne
      · rw [hc]; exact digit_upper_ne hm1
      · rw [hc]; exact digit_upper_ne hm2
  have hfind : findAmPm L = some pm := by
    have hshape : L = (hstr ++ [':', m1, m2]) ++ (ap :: 'M' :: tzL) := by
      rw [hLdef]; simp
    rw [hshape, findAmPm_append hxsfact, hfind2]
  -- step 5: removing the marker leaves hour and minutes
  have hrem : removeAmPm (hstr ++ ':' :: m1 :: m2 :: ap :: 'M' :: []) =
      hstr ++ [':', m1, m2] := by
    have hshape : hstr ++ ':' :: m1 :: m2 :: ap :: 'M' :: [] =
        (hstr ++ [':', m1, m2]) ++ [ap, 'M'] := by simp
    rw [hshape, removeAmPm_append hxsfact, hrem2, List.append_nil]
  -- step 6: trimming the core again is a no-op
  have htrim2 : jsTrimL (hstr ++ [':', m1, m2]) = hstr ++ [':', m1, m2] := by
    have h1 : trimLeftL (hstr ++ [':', m1, m2]) = hstr ++ [':', m1, m2] :=
      trimLeftL_eq_self (fun y hy => by
        rw [hhd] at hy
        simp only [List.cons_append, List.head?_cons, Option.some.injEq] at hy
        rw [← hy]
        exact digit_not_ws hhdd)
    have h2 : trimRightL (hstr ++ [':', m1, m2]) = hstr ++ [':', m1, m2] := by
      refine trimRightL_eq_self (fun y hy => ?_)
      rw [List.getLast?_append,
        show (([':', m1, m2] : List Char)).getLast? = some m2 from rfl] at hy
      have hy2 : some m2 = some y := hy
      cases hy2
      exact digit_not_ws hm2
    rw [jsTrimL_def, h1, h2]
  -- step 7: splitting on the colon
  have hsplitp : splitCh ':' (hstr ++ [':', m1, m2]) = [hstr, [m1, m2]] := by
    have hnc : ':' ∉ hstr := colon_not_mem_digits hdig
    have hnm : ':' ∉ [m1, m2] := by
      intro hm
      simp only [List.mem_cons, List.not_mem_nil, or_false] at hm
      rcases hm with hm | hm
      · rw [← hm] at hm1; exact absurd hm1 (by decide)
      · rw [← hm] at hm2; exact absurd hm2 (by decide)
    have : hstr ++ [':', m1, m2] = hstr ++ ':' :: [m1, m2] := by simp
    rw [this, splitCh_append hnc, splitCh_not_mem hnm]
  -- assemble
  show parsePGHLTime ⟨L⟩ = _
  have hdata : (⟨L⟩ : String).data = L := rfl
  simp only [parsePGHLTime, hdata, htrimL, hTZ, hsecs, hfind, hrem, htrim2, hsplitp]
  rfl

/-- Claim C3 (amended): for every input `H:MM` (hour 1–12, two minute
digits) with the AM/PM marker attached directly to the minutes, optionally
followed by a trailing timezone abbreviation, `parsePGHLTime` converts to
24-hour `HH:MM`: 12 AM maps to 00, 12 PM stays 12, any other PM hour has
12 added, the hour is zero-padded and the minute digits pass through.
(The amendment restricts the claim to markers not separated from the
minutes by a space — see the counterexample for the space-separated
form.) -/
theorem C3_ampm_conversion (h : Nat) (m1 m2 : Char) (pm : Bool) (tz : String)
    (hh1 : 1 ≤ h) (hh2 : h ≤ 12)
    (hm1 : isDigitCh m1 = true) (hm2 : isDigitCh m2 = true)
    (htz : tzOkB tz = true) :
    parsePGHLTime ⟨(toString h).data ++ ':' :: m1 :: m2 ::
        (if pm then 'P' else 'A') :: 'M' :: tz.data⟩ =
      .ok ⟨pad2Nat (to24 h pm) ++ ':' :: [m1, m2]⟩ := by
  obtain ⟨hne, hdig⟩ := toString_nat12 h hh1 hh2
  have htzshape : tz.data = [] ∨ (∃ ls, tz.data = ' ' :: ls ∧
      (ls.length = 2 ∨ ls.length = 3) ∧ ∀ c ∈ ls, isAsciiLetter c = true) := by
    rw [tzOkB] at htz
    cases htzd : tz.data with
    | nil => exact Or.inl rfl
    | cons c ls =>
      rw [htzd] at htz
      simp only [Bool.and_eq_true, Bool.or_eq_true, beq_iff_eq, List.all_eq_true] at htz
      obtain ⟨⟨hc, hlen⟩, hall⟩ := htz
      refine Or.inr ⟨ls, by rw [hc], ?_, hall⟩
      exact hlen
  have hapl : isAsciiLetter (if pm then 'P' else 'A') = true := by
    cases pm <;> decide
  have hfind2 : findAmPm ((if pm then 'P' else 'A') :: 'M' :: tz.data) = some pm := by
    cases pm <;> rfl
  have hrem2 : removeAmPm [(if pm then 'P' else 'A'), 'M'] = [] := by
    cases pm <;> rfl
  have hgen := parsePGHLTime_ampm_general ((toString h).data) m1 m2
    (if pm then 'P' else 'A') pm tz.data hne hdig hm1 hm2 hapl hfind2 hrem2 htzshape
  rw [jsParseInt_toString12 h hh1 hh2, adjustHour_to24 h pm hh1 hh2,
    padStart2_hourRepr _ (to24_le h pm hh1 hh2)] at hgen
  exact hgen

/-- Claim C3, refutation of the unrestricted reading: `"7:15 AM"`
contains an AM marker with hour 7 and minutes 15, but `parsePGHLTime`
returns `"07:00"`, not `"07:15"` — the timezone-strip regex eats `" AM"`
and the seconds-strip regex then eats `":15"`, so the minutes are lost. -/
theorem C3_counterexample :
    parsePGHLTime "7:15 AM" = .ok "07:00" ∧ ("07:00" : String) ≠ "07:15" := by
  constructor
  · decide
  · decide

/-- Concrete instances of amended claim C3: the spec's three examples. -/
theorem C3_witness :
    parsePGHLTime "7:15AM PDT" = .ok "07:15" ∧
    parsePGHLTime "12:00PM" = .ok "12:00" ∧
    parsePGHLTime "12:00AM" = .ok "00:00" := by
  refine ⟨?_, ?_, ?_⟩
  · have h1 := C3_ampm_conversion 7 '1' '5' false " PDT"
      (by decide) (by decide) (by decide) (by decide) (by decide)
    have he1 : (⟨(toString 7).data ++ ':' :: '1' :: '5' ::
        (if false then 'P' else 'A') :: 'M' :: (" PDT" : String).data⟩ : String) =
        "7:15AM PDT" := by decide
    have he2 : (⟨pad2Nat (to24 7 false) ++ ':' :: ['1', '5']⟩ : String) = "07:15" := by decide
    rw [he1, he2] at h1
    exact h1
  · have h1 := C3_ampm_conversion 12 '0' '0' true ""
      (by decide) (by decide) (by decide) (by decide) (by decide)
    have he1 : (⟨(toString 12).data ++ ':' :: '0' :: '0' ::
        (if true then 'P' else 'A') :: 'M' :: ("" : String).data⟩ : String) =
        "12:00PM" := by decide
    have he2 : (⟨pad2Nat (to24 12 true) ++ ':' :: ['0', '0']⟩ : String) = "12:00" := by decide
    rw [he1, he2] at h1
    exact h1
  · have h1 := C3_ampm_conversion 12 '0' '0' false ""
      (by decide) (by decide) (by decide) (by decide) (by decide)
    have he1 : (⟨(toString 12).data ++ ':' :: '0' :: '0' ::
        (if false then 'P' else 'A') :: 'M' :: ("" : String).data⟩ : String) =
        "12:00AM" := by decide
    have he2 : (⟨pad2Nat (to24 12 false) ++ ':' :: ['0', '0']⟩ : String) = "00:00" := by decide
    rw [he1, he2] at h1
    exact h1

theorem daysInMonth_le_31 (y : Int) (m : Nat) : daysInMonth y m ≤ 31 := by
  unfold daysInMonth
  split <;> first | omega | (split <;> omega)

theorem parseWeekdayTok_abbr (wi : Nat) (h : wi < 7) :
    parseWeekdayTok ((weekdayAbbrs.getD wi "").data) = some wi := by
  interval_cases wi <;> decide

theorem parseMonthTok_abbr (mi : Nat) (h : mi < 12) :
    parseMonthTok ((monthAbbrs.getD mi "").data) = some (mi + 1) := by
  interval_cases mi <;> decide

theorem parseNum2Tok_toString31 (d : Nat) (h1 : 1 ≤ d) (h2 : d ≤ 31) :
    parseNum2Tok ((toString d).data) = some d := by
  interval_cases d <;> decide

theorem space_not_mem_weekday (wi : Nat) (h : wi < 7) :
    ' ' ∉ ((weekdayAbbrs.getD wi "").data) := by
  interval_cases wi <;> decide

theorem space_not_mem_month (mi : Nat) (h : mi < 12) :
    ' ' ∉ ((monthAbbrs.getD mi "").data) := by
  interval_cases mi <;> decide

theorem space_not_mem_toString31 (d : Nat) (h1 : 1 ≤ d) (h2 : d ≤ 31) :
    ' ' ∉ ((toString d).data) := by
  interval_cases d <;> decide

theorem jsDateRefYear_large (y : Nat) (hy : 100 ≤ y) :
    jsDateRefYear (Int.ofNat y) = Int.ofNat y := by
  unfold jsDateRefYear
  rw [if_neg]
  rintro ⟨_, h2⟩
  have h3 : (y : Int) ≤ 99 := h2
  omega

theorem dateFnsParseEEEMMMdd_eq (w mo dd : List Char) (refYear : Int)
    (s : List Char) (hs : splitCh ' ' s = [w, mo, dd]) :
    dateFnsParseEEEMMMdd s refYear =
      match parseWeekdayTok w, parseMonthTok mo, parseNum2Tok dd with
      | some _, some m, some d =>
        if 1 ≤ d ∧ d ≤ daysInMonth refYear m then some (m, d) else none
      | _, _, _ => none := by
  unfold dateFnsParseEEEMMMdd
  rw [hs]

/-- Claim C4: for every weekday/month/day triple that is a valid calendar
date in the season's start year (day in the month's range, weekday agreeing
with the Gregorian calendar), `parsePGHLDate` applied to the string
`"<wd> <mon> <day>"` and that season string returns the ISO date
`"<startYear>-<MM>-<DD>"`.  The start year is the integer parse of the
season string's segment before the first hyphen, assumed ≥ 100 so that the
JS `Date` constructor's two-digit-year remapping does not fire. -/
theorem C4_short_date_pattern (wi mi d y : Nat) (season : String)
    (hwi : wi < 7) (hmi : mi < 12) (hy : 100 ≤ y)
    (hseason : jsParseInt ((splitCh '-' season.data).headD []) =
      some (Int.ofNat y))
    (hd1 : 1 ≤ d) (hd2 : d ≤ daysInMonth (Int.ofNat y) (mi + 1))
    (hvalid : dayOfWeek (Int.ofNat y) (mi + 1) d = wi) :
    parsePGHLDate
      ⟨(weekdayAbbrs.getD wi "").data ++ ' ' ::
        ((monthAbbrs.getD mi "").data ++ ' ' :: (toString d).data)⟩ season =
      .ok (isoDateStr (Int.ofNat y) (mi + 1) d) := by
  have hd31 : d ≤ 31 := le_trans hd2 (daysInMonth_le_31 _ _)
  have hsplit : splitCh ' '
      ((weekdayAbbrs.getD wi "").data ++ ' ' ::
        ((monthAbbrs.getD mi "").data ++ ' ' :: (toString d).data)) =
      [(weekdayAbbrs.getD wi "").data, (monthAbbrs.getD mi "").data,
       (toString d).data] := by
    rw [splitCh_append (space_not_mem_weekday wi hwi),
      splitCh_append (space_not_mem_month mi hmi),
      splitCh_not_mem (space_not_mem_toString31 d hd1 hd31)]
  have hfmt : dateFnsParseEEEMMMdd
      ((weekdayAbbrs.getD wi "").data ++ ' ' ::
        ((monthAbbrs.getD mi "").data ++ ' ' :: (toString d).data))
      (Int.ofNat y) = some (mi + 1, d) := by
    rw [dateFnsParseEEEMMMdd_eq _ _ _ _ _ hsplit,
      parseWeekdayTok_abbr wi hwi, parseMonthTok_abbr mi hmi,
      parseNum2Tok_toString31 d hd1 hd31]
    exact if_pos ⟨hd1, hd2⟩
  simp only [parsePGHLDate, hseason, jsDateRefYear_large y hy, hfmt]

/-- Concrete instance of claim C4: the spec's example
`parseDate("Sat Sep 13", "2025-26") == "2025-09-13"`. -/
theorem C4_witness :
    parsePGHLDate "Sat Sep 13" "2025-26" = .ok "2025-09-13" := by
  have h1 := C4_short_date_pattern 6 8 13 2025 "2025-26"
    (by decide) (by decide) (by decide) (by decide) (by decide) (by decide)
    (by decide)
  have he1 : (⟨(weekdayAbbrs.getD 6 "").data ++ ' ' ::
      ((monthAbbrs.getD 8 "").data ++ ' ' :: (toString 13).data)⟩ : String) =
      "Sat Sep 13" := by decide
  have he2 : isoDateStr (Int.ofNat 2025) (8 + 1) 13 = "2025-09-13" := by decide
  rw [he1, he2] at h1
  exact h1

end PGHL
